import Mathlib

/-!
Verification of the schedule-optimization engine of `services/schedule_optimizer.py`
(class `ScheduleOptimizer`), shallowly embedded in Lean 4.

Conventions of the embedding:
* dates are day numbers (`Int`); Python `(d1 - d2).days` becomes `Int` subtraction;
* Python `dict` state of the CPM passes becomes `Nat → Option Int` maps;
* SQLAlchemy `Float` columns (`unit_cost`, quantities) become `ℚ`; a nullable
  column that the code only tests for truthiness (`if resource.unit_cost`) is
  modelled as `ℚ` with `0` standing for both `0.0` and `NULL`, which agree
  under Python truthiness in every expression the optimizer evaluates;
* the DB queries (`Task.query.filter_by(project_id=...)`,
  `TaskDependency.query.filter(task_id.in_(...))`, ...) become the snapshot
  lists and explicit `List.filter`s over them;
* the display-only `description` strings that interpolate percent-formatted
  floats (`{utilization:.1%}`) are omitted from the records they would occur
  in; all ids and numeric fields are kept.
-/

/-- `models.Task` restricted to the columns the optimizer reads
(`id`, `name`, `duration`, `start_date`, `end_date`). -/
structure STask where
  id : Nat
  name : String
  duration : Int
  start_date : Int
  end_date : Int
  deriving DecidableEq, Repr

/-- `models.TaskDependency`. -/
structure TaskDependency where
  task_id : Nat
  predecessor_task_id : Nat
  dependency_type : String
  lag_days : Int
  deriving DecidableEq, Repr

/-- `models.Resource` restricted to the columns the optimizer reads. -/
structure SResource where
  id : Nat
  name : String
  rtype : String
  unit_cost : ℚ
  total_quantity : ℚ
  available_quantity : ℚ
  deriving DecidableEq, Repr

/-- `models.ResourceAssignment`. -/
structure ResourceAssignment where
  task_id : Nat
  resource_id : Nat
  quantity : ℚ
  deriving DecidableEq, Repr

/-- `models.Project` restricted to the columns the optimizer reads. -/
structure SProject where
  start_date : Int
  end_date : Int
  deriving DecidableEq, Repr

/-- The data one invocation of the engine works on: the project row plus the
rows the various queries inside `ScheduleOptimizer` fetch for that project. -/
structure Snapshot where
  project_id : Nat
  project : SProject
  tasks : List STask
  dependencies : List TaskDependency
  resources : List SResource
  assignments : List ResourceAssignment
  deriving Repr

/-! ## Critical-path computation (`_find_critical_path`) -/

/-- Functional update of a CPM state map. -/
def upd (m : Nat → Option Int) (k : Nat) (v : Int) : Nat → Option Int :=
  fun x => if x = k then some v else m x

/-- `TaskDependency.query.filter(TaskDependency.task_id.in_(task_dict.keys()))`:
the dependencies whose successor id occurs among the given tasks. -/
def relevantDeps (tasks : List STask) (deps : List TaskDependency) : List TaskDependency :=
  deps.filter (fun d => tasks.any (fun t => t.id == d.task_id))

/-- `any(dep.task_id == task.id for dep in dependencies)`. -/
def hasPredDep (D : List TaskDependency) (tid : Nat) : Bool :=
  D.any (fun d => d.task_id == tid)

/-- `any(dep.predecessor_task_id == task.id for dep in dependencies)`. -/
def hasSuccDep (D : List TaskDependency) (tid : Nat) : Bool :=
  D.any (fun d => d.predecessor_task_id == tid)

/-- The `max_predecessor_finish` loop: starting from `0`, fold over all
dependencies, and for each one targeting `tid` take the max with
`earliest_finish.get(predecessor.id, 0) + dep.lag_days`.  (The Python code
looks the predecessor up in `task_dict` only to read its `.id` back, which is
`dep.predecessor_task_id` itself.) -/
def maxPredFinish (D : List TaskDependency) (ef : Nat → Option Int) (tid : Nat) : Int :=
  D.foldl (fun acc d =>
    if d.task_id == tid then max acc ((ef d.predecessor_task_id).getD 0 + d.lag_days)
    else acc) 0

/-- Forward pass (`earliest_start` / `earliest_finish`), iterating the task
list in order and threading the two maps. -/
def fwd (D : List TaskDependency) :
    List STask → (Nat → Option Int) → (Nat → Option Int) →
    ((Nat → Option Int) × (Nat → Option Int))
  | [], es, ef => (es, ef)
  | t :: rest, es, ef =>
    if hasPredDep D t.id then
      fwd D rest (upd es t.id (maxPredFinish D ef t.id))
        (upd ef t.id (maxPredFinish D ef t.id + t.duration))
    else
      fwd D rest (upd es t.id 0) (upd ef t.id t.duration)

/-- Python `max(xs)` with `max([]) = 0`, mirroring
`max(earliest_finish.values()) if earliest_finish else 0`.  (Folding over the
per-task values visits each dict value at least once, so the maximum agrees
with the maximum over the dict's values.) -/
def maxList : List Int → Int
  | [] => 0
  | x :: xs => xs.foldl max x

/-- Minimum accumulator for the `min_successor_start` loop; `none` plays the
role of the initial `float('inf')`. -/
def omin (a : Option Int) (v : Int) : Option Int :=
  some (match a with
  | none => v
  | some x => min x v)

/-- The `min_successor_start` loop: fold over all dependencies, and for each
one whose predecessor is `tid` take the min with
`latest_start.get(successor.id, project_duration) - dep.lag_days`. -/
def minSuccStart (D : List TaskDependency) (ls : Nat → Option Int) (pd : Int) (tid : Nat) :
    Option Int :=
  D.foldl (fun acc d =>
    if d.predecessor_task_id == tid then omin acc ((ls d.task_id).getD pd - d.lag_days)
    else acc) none

/-- Backward pass (`latest_start` / `latest_finish`), iterating `reversed(tasks)`.
In the successor branch the accumulator is necessarily `some` (the branch
condition exhibits a matching dependency), so the `getD 0` default is never
used. -/
def bwd (D : List TaskDependency) (pd : Int) :
    List STask → (Nat → Option Int) → (Nat → Option Int) →
    ((Nat → Option Int) × (Nat → Option Int))
  | [], ls, lf => (ls, lf)
  | t :: rest, ls, lf =>
    if hasSuccDep D t.id then
      bwd D pd rest (upd ls t.id ((minSuccStart D ls pd t.id).getD 0 - t.duration))
        (upd lf t.id ((minSuccStart D ls pd t.id).getD 0))
    else
      bwd D pd rest (upd ls t.id (pd - t.duration)) (upd lf t.id pd)

/-- The full state computed by `_find_critical_path` before it filters the
critical tasks. -/
structure CpmState where
  es : Nat → Option Int
  ef : Nat → Option Int
  pd : Int
  ls : Nat → Option Int
  lf : Nat → Option Int

/-- Both passes of `_find_critical_path`. -/
def cpm (tasks : List STask) (deps : List TaskDependency) : CpmState :=
  let D := relevantDeps tasks deps
  let fe := fwd D tasks (fun _ => none) (fun _ => none)
  let pd := maxList (tasks.map (fun t => (fe.2 t.id).getD 0))
  let bl := bwd D pd tasks.reverse (fun _ => none) (fun _ => none)
  { es := fe.1, ef := fe.2, pd := pd, ls := bl.1, lf := bl.2 }

/-- `float_time = latest_start[task.id] - earliest_start[task.id]`; both maps
hold an entry for every task id, so the `getD 0` defaults are never used. -/
def floatTime (c : CpmState) (t : STask) : Int :=
  (c.ls t.id).getD 0 - (c.es t.id).getD 0

/-- `_find_critical_path`: the tasks whose float is `<= 0`, in task-list order. -/
def find_critical_path (tasks : List STask) (deps : List TaskDependency) : List STask :=
  tasks.filter (fun t => floatTime (cpm tasks deps) t ≤ 0)

-- Sanity: a 3-chain A(5) -> B(3) -> C(2), all critical, duration 10.
def tA : STask := ⟨1, "A", 5, 0, 5⟩
def tB : STask := ⟨2, "B", 3, 5, 8⟩
def tC : STask := ⟨3, "C", 2, 8, 10⟩

def chainABC : List TaskDependency :=
  [⟨2, 1, "FS", 0⟩, ⟨3, 2, "FS", 0⟩]

/-! ## Time optimizer (`_optimize_for_time`) -/

/-- One suggestion dict produced inside `_optimize_for_time`; one constructor
per dict shape (`'type': 'parallelization' / 'fast_tracking' /
'resource_reallocation'`). -/
inductive TimeOpt where
  | parallelization (description : String) (task_ids : List Nat)
      (time_saved_days : ℚ) (impact : String) (implementation_effort : String)
  | fast_tracking (task_id : Nat) (time_saved_days : ℚ) (additional_cost : ℚ)
      (impact : String) (implementation_effort : String)
  | resource_reallocation (from_task_id : Nat) (to_task_id : Nat)
      (resource_id : Nat) (time_saved_days : ℚ) (impact : String)
      (implementation_effort : String)
  deriving DecidableEq, Repr

/-- `opt.get('time_saved_days', 0)`. -/
def timeSavedGet : TimeOpt → ℚ
  | .parallelization _ _ s _ _ => s
  | .fast_tracking _ s _ _ _ => s
  | .resource_reallocation _ _ _ s _ _ => s

/-- The ordered pairs `(tasks[i], tasks[j])` with `i < j`, as produced by the
nested loop `for i, task1 in enumerate(tasks): for task2 in tasks[i+1:]`. -/
def pairsAfter : List STask → List (STask × STask)
  | [] => []
  | x :: xs => (xs.map (fun y => (x, y))) ++ pairsAfter xs

/-- `dependency_map.get(tid, [])`: the direct predecessor ids of `tid`
recorded by the dependency rows whose successor occurs in the task list. -/
def directPreds (D : List TaskDependency) (tid : Nat) : List Nat :=
  (D.filter (fun d => d.task_id == tid)).map (fun d => d.predecessor_task_id)

/-- The qualification test of `_find_parallelization_opportunities`:
neither task is a direct predecessor of the other, their direct-predecessor
sets do not intersect, and `abs((task1.start_date - task2.end_date).days) <= 1`. -/
def parallelCond (D : List TaskDependency) (t1 t2 : STask) : Bool :=
  let p1 := directPreds D t1.id
  let p2 := directPreds D t2.id
  !(p2.contains t1.id) && !(p1.contains t2.id) &&
    !(p1.any (fun x => p2.contains x)) &&
    ((t1.start_date - t2.end_date).natAbs ≤ 1)

/-- The suggestion dict appended for a qualifying pair. -/
def mkParallelOpp (t1 t2 : STask) : TimeOpt :=
  .parallelization
    ("Run tasks \"" ++ t1.name ++ "\" and \"" ++ t2.name ++ "\" in parallel")
    [t1.id, t2.id] ((min t1.duration t2.duration : Int) : ℚ) "medium" "low"

/-- `_find_parallelization_opportunities`: qualifying pairs in nested-loop
order, truncated by `opportunities[:5]` (no sorting happens). -/
def find_parallelization_opportunities (tasks : List STask) (deps : List TaskDependency) :
    List TimeOpt :=
  let D := relevantDeps tasks deps
  (((pairsAfter tasks).filter (fun p => parallelCond D p.1 p.2)).map
    (fun p => mkParallelOpp p.1 p.2)).take 5

/-- `_find_compression_opportunities`: for each task with `duration > 3` a
`fast_tracking` dict with `time_saved = min(duration * 0.2, 2)`, sorted by
time saved descending (Python's stable `list.sort(..., reverse=True)`) and
truncated to 3. -/
def find_compression_opportunities (tasks : List STask) : List TimeOpt :=
  let opps := (tasks.filter (fun t => 3 < t.duration)).map (fun t =>
    TimeOpt.fast_tracking t.id (min ((t.duration : ℚ) * 0.2) 2)
      ((t.duration : ℚ) * 100)
      (if 2 ≤ min ((t.duration : ℚ) * 0.2) 2 then "high" else "medium") "medium")
  (opps.mergeSort (fun a b => timeSavedGet b ≤ timeSavedGet a)).take 3

/-- `_optimize_critical_path_resources`: for each critical task and each of
its assignments, look for another assignment of the same resource on a
non-critical task of the project; if one exists, suggest reallocation from
the first such assignment's task. -/
def optimize_critical_path_resources (critical_tasks all_tasks : List STask)
    (assignments : List ResourceAssignment) : List TimeOpt :=
  let nonCriticalIds :=
    (all_tasks.filter (fun t => !(critical_tasks.contains t))).map (fun t => t.id)
  (critical_tasks.flatMap (fun ct =>
    (assignments.filter (fun a => a.task_id == ct.id)).flatMap (fun a =>
      match assignments.filter (fun o =>
          o.resource_id == a.resource_id && o.task_id != ct.id &&
            nonCriticalIds.contains o.task_id) with
      | [] => []
      | o :: _ =>
        [TimeOpt.resource_reallocation o.task_id ct.id a.resource_id 1 "high" "medium"]))).take 3

/-- One line of the `critical_path` list in the result payload
(`task_id`, `task_name`, `duration`, ISO dates kept as day numbers). -/
structure CriticalPathEntry where
  task_id : Nat
  task_name : String
  duration : Int
  start_date : Int
  end_date : Int
  deriving DecidableEq, Repr

/-- Result payload of `_optimize_for_time`. -/
structure TimeResult where
  critical_path : List CriticalPathEntry
  optimizations : List TimeOpt
  potential_time_savings_days : ℚ
  current_duration_days : Int
  optimized_duration_days : ℚ
  deriving DecidableEq, Repr

/-- `_optimize_for_time`. -/
def optimize_for_time (project : SProject) (tasks : List STask)
    (deps : List TaskDependency) (assignments : List ResourceAssignment) : TimeResult :=
  let critical_path := find_critical_path tasks deps
  let optimizations :=
    find_parallelization_opportunities tasks deps ++
    find_compression_opportunities tasks ++
    optimize_critical_path_resources critical_path tasks assignments
  let potential_savings := (optimizations.map timeSavedGet).sum
  { critical_path := critical_path.map (fun t =>
      ⟨t.id, t.name, t.duration, t.start_date, t.end_date⟩)
    optimizations := optimizations
    potential_time_savings_days := potential_savings
    current_duration_days := project.end_date - project.start_date
    optimized_duration_days :=
      max 1 (((project.end_date - project.start_date : Int) : ℚ) - potential_savings) }

/-! ## Cost optimizer (`_optimize_for_cost`) -/

/-- One suggestion dict produced inside `_optimize_for_cost`; one constructor
per dict shape.  `increase_resource` carries `additional_cost` and has no
`cost_saved` key. -/
inductive CostOpt where
  | reduce_resource (resource_id : Nat) (current_quantity recommended_quantity cost_saved : ℚ)
      (impact : String)
  | increase_resource (resource_id : Nat) (current_quantity recommended_quantity additional_cost : ℚ)
      (impact : String)
  | schedule_adjustment (task_ids : List Nat) (cost_saved : ℚ) (impact : String)
      (implementation_effort : String)
  | resource_substitution (from_resource_id to_resource_id : Nat) (cost_saved : ℚ)
      (impact : String) (implementation_effort : String)
  deriving DecidableEq, Repr

/-- `opt.get('cost_saved', 0)`: `increase_resource` dicts have no such key. -/
def costSavedGet : CostOpt → ℚ
  | .reduce_resource _ _ _ s _ => s
  | .increase_resource _ _ _ _ _ => 0
  | .schedule_adjustment _ s _ _ => s
  | .resource_substitution _ _ s _ _ => s

/-- `sum(a.quantity for a in resource_assignments)` for the assignments of
one resource. -/
def totalAssigned (assignments : List ResourceAssignment) (rid : Nat) : ℚ :=
  ((assignments.filter (fun a => a.resource_id == rid)).map (fun a => a.quantity)).sum

/-- The suggestions `_optimize_resource_utilization` appends for one resource:
skip unless `total_quantity > 0`; `utilization < 0.7` yields a
`reduce_resource` dict, `utilization > 0.95` an `increase_resource` dict.
The `if resource.unit_cost else 0` guards are kept verbatim. -/
def utilization_opts_for (assignments : List ResourceAssignment) (r : SResource) :
    List CostOpt :=
  if 0 < r.total_quantity then
    if totalAssigned assignments r.id / r.total_quantity < 0.7 then
      [.reduce_resource r.id r.total_quantity (totalAssigned assignments r.id * 1.1)
        (if r.unit_cost ≠ 0 then
          (r.total_quantity - totalAssigned assignments r.id * 1.1) * r.unit_cost else 0)
        "medium"]
    else if 0.95 < totalAssigned assignments r.id / r.total_quantity then
      [.increase_resource r.id r.total_quantity (totalAssigned assignments r.id * 1.2)
        (if r.unit_cost ≠ 0 then
          (totalAssigned assignments r.id * 1.2 - r.total_quantity) * r.unit_cost else 0)
        "high"]
    else []
  else []

/-- `_optimize_resource_utilization`. -/
def optimize_resource_utilization (resources : List SResource)
    (assignments : List ResourceAssignment) : List CostOpt :=
  resources.flatMap (utilization_opts_for assignments)

/-- `_optimize_task_scheduling_for_cost`: tasks with at least 3 assignment
rows are resource-intensive; two or more of them yield one flat
`schedule_adjustment` suggestion worth 5000 naming the first three. -/
def optimize_task_scheduling_for_cost (tasks : List STask)
    (assignments : List ResourceAssignment) : List CostOpt :=
  let resource_intensive_tasks :=
    tasks.filter (fun t => 3 ≤ (assignments.filter (fun a => a.task_id == t.id)).length)
  if 2 ≤ resource_intensive_tasks.length then
    [.schedule_adjustment ((resource_intensive_tasks.take 3).map (fun t => t.id))
      5000 "medium" "low"]
  else []

/-- Python `min(xs, key=unit_cost)` over a nonempty list: the first element
of minimal cost. -/
def minByCost (x : SResource) (xs : List SResource) : SResource :=
  xs.foldl (fun best r => if r.unit_cost < best.unit_cost then r else best) x

/-- `_find_resource_substitutions`: for each resource costing more than 100,
look for same-type resources below 80% of its cost and suggest the cheapest;
truncated to 2.  (`r.unit_cost and r.unit_cost > 100` collapses to the
comparison since a falsy cost never exceeds 100.) -/
def find_resource_substitutions (resources : List SResource) : List CostOpt :=
  ((resources.filter (fun r => 100 < r.unit_cost)).flatMap (fun r =>
    match resources.filter (fun o =>
        o.rtype == r.rtype && o.unit_cost ≠ 0 && o.unit_cost < r.unit_cost * 0.8) with
    | [] => []
    | s :: ss =>
      let cheapest := minByCost s ss
      [.resource_substitution r.id cheapest.id
        ((r.unit_cost - cheapest.unit_cost) * r.total_quantity) "medium" "low"])).take 2

/-- Result payload of `_optimize_for_cost`. -/
structure CostResult where
  optimizations : List CostOpt
  potential_cost_savings : ℚ
  current_estimated_cost : ℚ
  optimized_estimated_cost : ℚ
  savings_percentage : ℚ
  deriving DecidableEq, Repr

/-- `_optimize_for_cost`.  `current_cost` sums `unit_cost * total_quantity`
over the resources with truthy `unit_cost`. -/
def optimize_for_cost (tasks : List STask) (resources : List SResource)
    (assignments : List ResourceAssignment) : CostResult :=
  let optimizations :=
    optimize_resource_utilization resources assignments ++
    optimize_task_scheduling_for_cost tasks assignments ++
    find_resource_substitutions resources
  let potential_savings := (optimizations.map costSavedGet).sum
  let current_cost :=
    ((resources.filter (fun r => r.unit_cost ≠ 0)).map
      (fun r => r.unit_cost * r.total_quantity)).sum
  { optimizations := optimizations
    potential_cost_savings := potential_savings
    current_estimated_cost := current_cost
    optimized_estimated_cost := max 0 (current_cost - potential_savings)
    savings_percentage :=
      if 0 < current_cost then potential_savings / current_cost * 100 else 0 }

/-! ## Resource optimizer (`_optimize_for_resources`) -/

/-- One suggestion dict produced inside `_optimize_for_resources`. -/
inductive ResOpt where
  | resource_leveling (impact : String) (implementation_effort : String)
      (benefits : List String)
  | resolve_conflict (task_ids : List Nat) (conflicting_resources : List Nat)
      (suggested_action : String) (impact : String) (implementation_effort : String)
  | increase_capacity (resource_id : Nat) (current_available recommended_increase : ℚ)
      (impact : String)
  deriving DecidableEq, Repr

/-- `_optimize_resource_leveling`: unconditionally one advisory suggestion. -/
def optimize_resource_leveling : List ResOpt :=
  [.resource_leveling "medium" "high"
    ["Reduced resource peak demands", "More consistent workforce utilization",
     "Lower overtime costs"]]

/-- The resource ids assigned to a task. -/
def taskResourceIds (assignments : List ResourceAssignment) (tid : Nat) : List Nat :=
  (assignments.filter (fun a => a.task_id == tid)).map (fun a => a.resource_id)

/-- `set(ids1).intersection(set(ids2))` listed in first-list order without
duplicates (a deterministic stand-in for Python's set iteration order). -/
def idIntersection (ids1 ids2 : List Nat) : List Nat :=
  ids1.dedup.filter (fun x => ids2.contains x)

/-- `_resolve_resource_conflicts`: pairs of tasks whose date ranges overlap
and that share an assigned resource id, first three pairs in nested-loop
order. -/
def resolve_resource_conflicts (tasks : List STask)
    (assignments : List ResourceAssignment) : List ResOpt :=
  let conflicts := (pairsAfter tasks).filter (fun p =>
    p.1.start_date ≤ p.2.end_date && p.2.start_date ≤ p.1.end_date &&
      (idIntersection (taskResourceIds assignments p.1.id)
        (taskResourceIds assignments p.2.id)) ≠ [])
  (conflicts.take 3).map (fun p =>
    .resolve_conflict [p.1.id, p.2.id]
      (idIntersection (taskResourceIds assignments p.1.id)
        (taskResourceIds assignments p.2.id))
      "Reschedule one task or allocate additional resources" "high" "medium")

/-- The suggestion `_optimize_resource_capacity` appends for one resource:
the Python guard `if resource.available_quantity and resource.total_quantity`
skips any resource whose available or total quantity is falsy (0.0 or NULL);
past the guard, an availability fraction below 10% yields an
`increase_capacity` dict recommending `total_quantity * 0.2` more. -/
def capacity_opts_for (r : SResource) : List ResOpt :=
  if r.available_quantity ≠ 0 ∧ r.total_quantity ≠ 0 then
    if r.available_quantity / r.total_quantity < 0.1 then
      [.increase_capacity r.id r.available_quantity (r.total_quantity * 0.2) "high"]
    else []
  else []

/-- `_optimize_resource_capacity`. -/
def optimize_resource_capacity (resources : List SResource) : List ResOpt :=
  resources.flatMap capacity_opts_for

/-- `_analyze_resource_utilization`: counts by resource type. -/
structure UtilAnalysis where
  total_resources : Nat
  labor : Nat
  equipment : Nat
  material : Nat
  utilization_summary : String
  deriving DecidableEq, Repr

/-- `_analyze_resource_utilization`. -/
def analyze_resource_utilization (resources : List SResource) : UtilAnalysis :=
  { total_resources := resources.length
    labor := (resources.filter (fun r => r.rtype == "labor")).length
    equipment := (resources.filter (fun r => r.rtype == "equipment")).length
    material := (resources.filter (fun r => r.rtype == "material")).length
    utilization_summary := "Resource utilization analysis complete" }

/-- One entry of `_recommend_resource_adjustments` (all fields fixed text). -/
structure Recommendation where
  category : String
  recommendation : String
  priority : String
  expected_benefit : String
  deriving DecidableEq, Repr

/-- `_recommend_resource_adjustments`. -/
def recommend_resource_adjustments : List Recommendation :=
  [⟨"capacity_planning",
    "Consider implementing dynamic resource allocation based on task priorities",
    "medium", "Improved resource efficiency and cost reduction"⟩,
   ⟨"scheduling", "Implement resource leveling to smooth demand patterns",
    "high", "Reduced peak resource costs and improved workflow"⟩]

/-- Result payload of `_optimize_for_resources`. -/
structure ResResult where
  optimizations : List ResOpt
  resource_utilization_analysis : UtilAnalysis
  recommended_adjustments : List Recommendation
  deriving DecidableEq, Repr

/-- `_optimize_for_resources`. -/
def optimize_for_resources (tasks : List STask) (resources : List SResource)
    (assignments : List ResourceAssignment) : ResResult :=
  { optimizations :=
      optimize_resource_leveling ++
      resolve_resource_conflicts tasks assignments ++
      optimize_resource_capacity resources
    resource_utilization_analysis := analyze_resource_utilization resources
    recommended_adjustments := recommend_resource_adjustments }

/-! ## Facade (`optimize_project_schedule`) -/

/-- The payload under the `'results'` key, one variant per optimizer. -/
inductive OptResults where
  | time (r : TimeResult)
  | cost (r : CostResult)
  | resource (r : ResResult)
  deriving DecidableEq, Repr

/-- The dict `optimize_project_schedule` returns.  The failure dict
`{'success': False, 'error': ...}` has no other keys, hence the `Option`
fields. -/
structure FacadeResult where
  success : Bool
  error : Option String
  optimization_type : Option String
  project_id : Option Nat
  results : Option OptResults
  generated_at : Option String
  deriving DecidableEq, Repr

/-- `optimize_project_schedule`.  The only `raise` in the function is the
`ValueError` for an unsupported type, modelled as the `Except.error` case;
`now` stands for `datetime.utcnow().isoformat()`. -/
def optimize_project_schedule (now : String) (s : Snapshot) (optimization_type : String) :
    Except String FacadeResult :=
  if optimization_type ≠ "time" ∧ optimization_type ≠ "cost" ∧
      optimization_type ≠ "resource" then
    .error ("Unsupported optimization type: " ++ optimization_type)
  else if s.tasks = [] then
    .ok { success := false, error := some "No tasks found for optimization"
          optimization_type := none, project_id := none, results := none
          generated_at := none }
  else
    .ok { success := true, error := none
          optimization_type := some optimization_type
          project_id := some s.project_id
          results := some (if optimization_type = "time" then
              .time (optimize_for_time s.project s.tasks s.dependencies s.assignments)
            else if optimization_type = "cost" then
              .cost (optimize_for_cost s.tasks s.resources s.assignments)
            else
              .resource (optimize_for_resources s.tasks s.resources s.assignments))
          generated_at := some now }

/-- The `'results'` payload of a facade invocation, `none` on the failure
dict and on the raised `ValueError`. -/
def resultsOf : Except String FacadeResult → Option OptResults
  | .ok r => r.results
  | .error _ => none

/-- The `critical_path` list of a facade invocation that dispatched to the
time optimizer, `none` otherwise. -/
def criticalPathOf : Except String FacadeResult → Option (List CriticalPathEntry)
  | .ok r => match r.results with
    | some (.time tr) => some tr.critical_path
    | _ => none
  | .error _ => none

/-- The `optimizations` list of a facade invocation that dispatched to the
time optimizer, `none` otherwise. -/
def timeOptsOf : Except String FacadeResult → Option (List TimeOpt)
  | .ok r => match r.results with
    | some (.time tr) => some tr.optimizations
    | _ => none
  | .error _ => none

/-- The resource id a resource-optimizer suggestion is about, when it is
about a single resource. -/
def resOptResourceId : ResOpt → Option Nat
  | .increase_capacity rid _ _ _ => some rid
  | _ => none

/-- The resource id a cost-optimizer suggestion is about, when it is about a
single resource's utilization. -/
def costOptResourceId : CostOpt → Option Nat
  | .reduce_resource rid _ _ _ _ => some rid
  | .increase_resource rid _ _ _ _ => some rid
  | _ => none

/-! ## Concrete snapshots used as witnesses and counterexamples -/

/-- Two-task dependency cycle: A depends on B and B depends on A. -/
def cycTasks : List STask := [⟨1, "A", 2, 0, 2⟩, ⟨2, "B", 3, 2, 5⟩]

def cycDeps : List TaskDependency := [⟨1, 2, "FS", 0⟩, ⟨2, 1, "FS", 0⟩]

def snapCyc : Snapshot := ⟨9, ⟨0, 5⟩, cycTasks, cycDeps, [], []⟩

/-- The acyclic chain obtained from `cycDeps` by dropping the back edge. -/
def cycDepsAcyclic : List TaskDependency := [⟨2, 1, "FS", 0⟩]

def emptySnap : Snapshot := ⟨7, ⟨0, 10⟩, [], [], [], []⟩

/-- The chain A -> B -> C used against C5: C depends on A transitively (via
B), and C's window is adjacent to A's. -/
def parTasks : List STask := [⟨1, "A", 4, 10, 14⟩, ⟨2, "B", 5, 20, 25⟩, ⟨3, "C", 2, 6, 10⟩]

def parDeps : List TaskDependency := [⟨2, 1, "FS", 0⟩, ⟨3, 2, "FS", 0⟩]

/-- Predecessor U (5 days) and successor V under a start-to-start
dependency with zero lag. -/
def ssTasks : List STask := [⟨1, "U", 5, 0, 5⟩, ⟨2, "V", 1, 0, 1⟩]

/-- An acyclic two-task snapshot whose task list is NOT topologically
ordered: the successor B (1 day) is listed before its predecessor A
(10 days), with a finish-to-start lag of 3 days. -/
def c2tB : STask := ⟨1, "B", 1, 0, 1⟩

def c2tA : STask := ⟨2, "A", 10, 0, 10⟩

def c2Deps : List TaskDependency := [⟨1, 2, "FS", 3⟩]

/-! ## Topological order of the task list -/

/-- The task list is topologically sorted with respect to the dependency
list: walking the list, no dependency targeting the current task has its
predecessor at the current position or later. -/
def topoOK (D : List TaskDependency) : List STask → Bool
  | [] => true
  | t :: rest =>
    (D.all fun d => !(d.task_id == t.id) ||
      ((t :: rest).all fun u => !(u.id == d.predecessor_task_id))) && topoOK D rest

/-! ## C7: linear chains of finish-to-start dependencies -/

/-- The dependency rows of a linear chain: each consecutive pair of the task
list joined finish-to-start with zero lag. -/
def chain_deps : List STask → List TaskDependency
  | [] => []
  | [_] => []
  | u :: s :: rest => ⟨s.id, u.id, "FS", 0⟩ :: chain_deps (s :: rest)

/-- Sum of the durations of a task list. -/
def sumdur (xs : List STask) : Int := (xs.map STask.duration).sum

/-- The qualification test of `_find_parallelization_opportunities`, spelled
as a proposition in the claim's vocabulary: neither task is a direct
predecessor of the other, their direct-predecessor sets are disjoint, and
the two windows are adjacent (`abs(start1 - end2) <= 1` day).  Stated
separately from the Boolean `parallelCond` of the source so the two can be
proved to agree. -/
def qualifiesDirectly (D : List TaskDependency) (t1 t2 : STask) : Prop :=
  t1.id ∉ directPreds D t2.id ∧ t2.id ∉ directPreds D t1.id ∧
  (∀ x ∈ directPreds D t1.id, x ∉ directPreds D t2.id) ∧
  (t1.start_date - t2.end_date).natAbs ≤ 1

instance (D : List TaskDependency) (t1 t2 : STask) : Decidable (qualifiesDirectly D t1 t2) := by
  unfold qualifiesDirectly
  infer_instance

/-- The two-task chain A(5d) -> B(3d) listed in dependency order... -/
def c7tA : STask := ⟨1, "A", 5, 0, 5⟩

/-- ...and its successor B; the C7 counterexample lists B before A. -/
def c7tB : STask := ⟨2, "B", 3, 5, 8⟩

/-! ## C1 -/

/-- C1 counterexample: on the two-task dependency cycle the engine raises
nothing — the facade returns a successful result carrying a fully computed
critical path (both tasks of the cycle), contradicting the claim that a
`CycleDetectedError` is raised with no critical-path output. -/
theorem c1_cycle_counterexample :
    criticalPathOf (optimize_project_schedule "2024-01-01T00:00:00" snapCyc "time") =
      some [⟨1, "A", 2, 0, 2⟩, ⟨2, "B", 3, 2, 5⟩] := by
  decide

/-- C1 amended: a cyclic snapshot is processed without any error; the forward
pass silently resolves a not-yet-computed predecessor finish to `0`, and the
two-task cycle yields the same critical path `[A, B]` as the acyclic chain
obtained by deleting the back edge. -/
theorem c1_cycle_no_error :
    find_critical_path cycTasks cycDeps = cycTasks ∧
    find_critical_path cycTasks cycDepsAcyclic = cycTasks := by
  decide

/-! ## C4 -/

/-- C4 counterexample: on a snapshot with zero tasks the engine does not
raise; it returns (`Except.ok`) the failure dict
`{'success': False, 'error': 'No tasks found for optimization'}`. -/
theorem c4_no_tasks_counterexample :
    optimize_project_schedule "2024-01-01T00:00:00" emptySnap "time" =
      .ok { success := false, error := some "No tasks found for optimization"
            optimization_type := none, project_id := none, results := none
            generated_at := none } := by
  rfl

/-- C4 amended: for every snapshot with zero tasks and every supported
optimization type, the engine returns the failure dict before dispatching to
any optimizer — no exception is raised and no optimization payload is
produced (`results` is absent). -/
theorem c4_no_tasks_failure_dict (now : String) (s : Snapshot) (ot : String)
    (hot : ot = "time" ∨ ot = "cost" ∨ ot = "resource") (hts : s.tasks = []) :
    optimize_project_schedule now s ot =
      .ok { success := false, error := some "No tasks found for optimization"
            optimization_type := none, project_id := none, results := none
            generated_at := none } := by
  rcases hot with h | h | h <;> subst h <;>
    simp [optimize_project_schedule, hts]

/-- C4 witness: the amended theorem applied to the concrete empty snapshot
with the `cost` optimizer. -/
theorem c4_no_tasks_failure_dict_witness :
    optimize_project_schedule "t0" emptySnap "cost" =
      .ok { success := false, error := some "No tasks found for optimization"
            optimization_type := none, project_id := none, results := none
            generated_at := none } :=
  c4_no_tasks_failure_dict "t0" emptySnap "cost" (Or.inr (Or.inl rfl)) (by decide)

/-- Every suggestion `_optimize_resource_capacity` emits for a resource
names that resource's id. -/
theorem capacity_opts_for_id (r : SResource) :
    ∀ s ∈ capacity_opts_for r, resOptResourceId s = some r.id := by
  intro s hs
  unfold capacity_opts_for at hs
  split_ifs at hs <;> simp_all [resOptResourceId]

/-- Every suggestion `_optimize_resource_utilization` emits for a resource
names that resource's id. -/
theorem utilization_opts_for_id (assignments : List ResourceAssignment) (r : SResource) :
    ∀ s ∈ utilization_opts_for assignments r, costOptResourceId s = some r.id := by
  intro s hs
  unfold utilization_opts_for at hs
  split_ifs at hs <;> simp_all [costOptResourceId]

/-! ## C6 -/

/-- C6 counterexample: a resource with zero available quantity (out of 100,
an availability fraction of 0% < 10%) triggers no capacity suggestion at all,
because the Python truthiness guard `if resource.available_quantity and
resource.total_quantity` skips it — contradicting the claim that such a
resource gets a 20%-increase suggestion. -/
theorem c6_zero_available_counterexample :
    optimize_resource_capacity [⟨1, "Crane", "equipment", 50, 100, 0⟩] = [] ∧
    (0 : ℚ) / 100 < 0.1 := by
  constructor
  · norm_num [optimize_resource_capacity, capacity_opts_for]
  · norm_num

/-- C6 amended: among resources with distinct ids, a resource with *nonzero*
available quantity and nonzero total quantity whose availability fraction is
below 10% gets exactly the capacity suggestion recommending an increase of
20% of the total quantity; a resource with zero available quantity is
skipped by the truthiness guard, and a fraction of 10% or more yields no
capacity suggestion. -/
theorem c6_capacity_threshold (resources : List SResource) (r : SResource)
    (hmem : r ∈ resources) (hnd : (resources.map SResource.id).Nodup) :
    (r.available_quantity ≠ 0 → r.total_quantity ≠ 0 →
      r.available_quantity / r.total_quantity < 0.1 →
      ResOpt.increase_capacity r.id r.available_quantity (r.total_quantity * 0.2) "high"
        ∈ optimize_resource_capacity resources) ∧
    (r.available_quantity = 0 →
      ∀ s ∈ optimize_resource_capacity resources, resOptResourceId s ≠ some r.id) ∧
    (¬ r.available_quantity / r.total_quantity < 0.1 →
      ∀ s ∈ optimize_resource_capacity resources, resOptResourceId s ≠ some r.id) := by
  have hgen : ∀ P : SResource → Prop, (∀ x, P x → capacity_opts_for x = []) →
      P r → ∀ s ∈ optimize_resource_capacity resources, resOptResourceId s ≠ some r.id := by
    intro P hP hPr s hs heq
    obtain ⟨r', hr', hsr'⟩ := List.mem_flatMap.mp hs
    have hid : r'.id = r.id :=
      Option.some_inj.mp ((capacity_opts_for_id r' s hsr').symm.trans heq)
    have : r' = r := List.inj_on_of_nodup_map hnd hr' hmem hid
    subst this
    rw [hP r' hPr] at hsr'
    simp at hsr'
  refine ⟨fun h1 h2 h3 => ?_, fun h0 => ?_, fun hge => ?_⟩
  · exact List.mem_flatMap.mpr ⟨r, hmem, by simp [capacity_opts_for, h1, h2, h3]⟩
  · exact hgen (fun x => x.available_quantity = 0)
      (fun x hx => by simp [capacity_opts_for, hx]) h0
  · exact hgen (fun x => ¬ x.available_quantity / x.total_quantity < 0.1)
      (fun x hx => by simp [capacity_opts_for, hx]) hge

/-- C6 witness: a resource with 5 of 100 available (5% < 10%) receives the
capacity suggestion recommending an increase of `100 * 0.2`. -/
theorem c6_capacity_threshold_witness :
    ResOpt.increase_capacity 1 5 ((100 : ℚ) * 0.2) "high"
      ∈ optimize_resource_capacity [⟨1, "Mixer", "equipment", 10, 100, 5⟩] :=
  (c6_capacity_threshold [⟨1, "Mixer", "equipment", 10, 100, 5⟩]
    ⟨1, "Mixer", "equipment", 10, 100, 5⟩ (by simp) (by simp)).1
    (by norm_num) (by norm_num) (by norm_num)

/-! ## C8 -/

/-- C8: for a resource with positive total quantity, utilization below 70%
yields the reduce-suggestion with recommended quantity `assigned * 1.1` and
cost saved `(total - assigned * 1.1) * unit_cost`; utilization above 95%
yields the increase-suggestion with recommended quantity `assigned * 1.2`
and proportional additional cost; utilization inside `[70%, 95%]` yields no
utilization suggestion for that resource (resource ids assumed distinct). -/
theorem c8_utilization_thresholds (resources : List SResource)
    (assignments : List ResourceAssignment) (r : SResource) (hmem : r ∈ resources)
    (hnd : (resources.map SResource.id).Nodup) (hpos : 0 < r.total_quantity) :
    (totalAssigned assignments r.id / r.total_quantity < 0.7 →
      CostOpt.reduce_resource r.id r.total_quantity (totalAssigned assignments r.id * 1.1)
        ((r.total_quantity - totalAssigned assignments r.id * 1.1) * r.unit_cost) "medium"
        ∈ optimize_resource_utilization resources assignments) ∧
    (0.95 < totalAssigned assignments r.id / r.total_quantity →
      CostOpt.increase_resource r.id r.total_quantity (totalAssigned assignments r.id * 1.2)
        ((totalAssigned assignments r.id * 1.2 - r.total_quantity) * r.unit_cost) "high"
        ∈ optimize_resource_utilization resources assignments) ∧
    (0.7 ≤ totalAssigned assignments r.id / r.total_quantity →
      totalAssigned assignments r.id / r.total_quantity ≤ 0.95 →
      ∀ s ∈ optimize_resource_utilization resources assignments,
        costOptResourceId s ≠ some r.id) := by
  refine ⟨fun hlt => ?_, fun hgt => ?_, fun hge hle s hs heq => ?_⟩
  · refine List.mem_flatMap.mpr ⟨r, hmem, ?_⟩
    by_cases huc : r.unit_cost = 0
    · simp [utilization_opts_for, hpos, hlt, huc]
    · simp [utilization_opts_for, hpos, hlt, huc]
  · have hnlt : ¬ totalAssigned assignments r.id / r.total_quantity < 0.7 := by
      intro h
      norm_num at h hgt
      linarith
    refine List.mem_flatMap.mpr ⟨r, hmem, ?_⟩
    by_cases huc : r.unit_cost = 0
    · simp [utilization_opts_for, hpos, hnlt, hgt, huc]
    · simp [utilization_opts_for, hpos, hnlt, hgt, huc]
  · obtain ⟨r', hr', hsr'⟩ := List.mem_flatMap.mp hs
    have hid : r'.id = r.id :=
      Option.some_inj.mp ((utilization_opts_for_id assignments r' s hsr').symm.trans heq)
    have : r' = r := List.inj_on_of_nodup_map hnd hr' hmem hid
    subst this
    have hnlt : ¬ totalAssigned assignments r'.id / r'.total_quantity < 0.7 := by
      intro h; norm_num at h hge; linarith
    have hngt : ¬ (0.95 : ℚ) < totalAssigned assignments r'.id / r'.total_quantity := by
      intro h; norm_num at h hle; linarith
    rw [show utilization_opts_for assignments r' = [] by
      simp [utilization_opts_for, hpos, hnlt, hngt]] at hsr'
    simp at hsr'

/-- C8 witness: the spec's own example — total 100, assigned 50, unit cost 2:
utilization 50% < 70% yields the reduce-suggestion recommending `50 * 1.1`
with cost saved `(100 - 50 * 1.1) * 2`. -/
theorem c8_utilization_thresholds_witness :
    CostOpt.reduce_resource 1 100 ((50 : ℚ) * 1.1) (((100 : ℚ) - 50 * 1.1) * 2) "medium"
      ∈ optimize_resource_utilization [⟨1, "Crew", "labor", 2, 100, 100⟩] [⟨5, 1, 50⟩] := by
  have h := (c8_utilization_thresholds [⟨1, "Crew", "labor", 2, 100, 100⟩] [⟨5, 1, 50⟩]
    ⟨1, "Crew", "labor", 2, 100, 100⟩ (by simp) (by simp) (by norm_num)).1
    (by norm_num [totalAssigned])
  simpa [totalAssigned] using h

/-! ## C5 -/



/-- C5 counterexample: the pair (A, C) is transitively dependent (A -> B ->
C is in the dependency set), yet the time optimizer suggests running A and C
in parallel — the code only rules out *direct* predecessor relations and
shared direct predecessors, not transitive ones. -/
theorem c5_transitive_pair_counterexample :
    find_parallelization_opportunities parTasks parDeps =
      [mkParallelOpp ⟨1, "A", 4, 10, 14⟩ ⟨3, "C", 2, 6, 10⟩] ∧
    (⟨2, 1, "FS", 0⟩ : TaskDependency) ∈ parDeps ∧
    (⟨3, 2, "FS", 0⟩ : TaskDependency) ∈ parDeps := by
  refine ⟨by decide, by decide, by decide⟩

/-- The source's Boolean pair test agrees with the claim-vocabulary
qualifying predicate. -/
theorem parallelCond_iff (D : List TaskDependency) (t1 t2 : STask) :
    parallelCond D t1 t2 = true ↔ qualifiesDirectly D t1 t2 := by
  unfold parallelCond qualifiesDirectly
  simp
  tauto

theorem parallelCond_eq_decide (D : List TaskDependency) (t1 t2 : STask) :
    parallelCond D t1 t2 = decide (qualifiesDirectly D t1 t2) := by
  by_cases h : qualifiesDirectly D t1 t2
  · rw [decide_eq_true h, (parallelCond_iff D t1 t2).mpr h]
  · rw [decide_eq_false h]
    exact Bool.eq_false_iff.mpr (fun hc => h ((parallelCond_iff D t1 t2).mp hc))

/-- C5 amended: the returned suggestion list is exactly the FIRST five
qualifying pairs in nested-loop iteration order, each mapped to its
suggestion (time saved = min of the two durations, inside `mkParallelOpp`),
where a pair qualifies when neither task is a *direct* predecessor of the
other, the two direct-predecessor sets are disjoint (transitive dependence
is not checked), and `abs(task1.start_date - task2.end_date) <= 1` day; in
particular the list is capped at 5 and is not sorted by savings. -/
theorem c5_parallelization_first_five (tasks : List STask) (deps : List TaskDependency) :
    find_parallelization_opportunities tasks deps =
      (((pairsAfter tasks).filter (fun p =>
          decide (qualifiesDirectly (relevantDeps tasks deps) p.1 p.2))).map
        (fun p => mkParallelOpp p.1 p.2)).take 5 ∧
    (find_parallelization_opportunities tasks deps).length ≤ 5 := by
  constructor
  · simp only [find_parallelization_opportunities]
    congr 1
    congr 1
    apply List.filter_congr
    intro p _
    exact parallelCond_eq_decide _ p.1 p.2
  · simp only [find_parallelization_opportunities]
    exact List.length_take_le 5 _

/-! ## C3 counterexample data -/



/-- C3 counterexample: under a start-to-start dependency with zero lag the
successor's earliest start should be coupled to the predecessor's earliest
*start* (0), but the code computes 5 — the predecessor's earliest *finish*
plus lag — exactly as it does when the same dependency is labelled
finish-to-start: the forward pass never reads `dependency_type`. -/
theorem c3_relation_type_counterexample :
    (cpm ssTasks [⟨2, 1, "SS", 0⟩]).es 2 = some 5 ∧
    (cpm ssTasks [⟨2, 1, "FS", 0⟩]).es 2 = some 5 ∧
    (cpm ssTasks [⟨2, 1, "SS", 0⟩]).es 1 = some 0 := by
  refine ⟨by decide, by decide, by decide⟩

/-! ## Map and fold lemmas for the CPM passes -/

theorem upd_self (m : Nat → Option Int) (k : Nat) (v : Int) : upd m k v k = some v := by
  simp [upd]

theorem upd_other (m : Nat → Option Int) (k : Nat) (v : Int) (x : Nat) (h : x ≠ k) :
    upd m k v x = m x := by
  simp [upd, h]

theorem maxPredFinish_acc_le (D : List TaskDependency) (ef : Nat → Option Int) (tid : Nat) :
    ∀ acc : Int,
      acc ≤ D.foldl (fun acc d =>
        if d.task_id == tid then max acc ((ef d.predecessor_task_id).getD 0 + d.lag_days)
        else acc) acc := by
  induction D with
  | nil => intro acc; exact le_refl acc
  | cons e D ih =>
    intro acc
    simp only [List.foldl_cons]
    refine le_trans ?_ (ih _)
    by_cases h : e.task_id == tid
    · simp only [h, if_true]
      exact le_max_left _ _
    · simp [h]

theorem maxPredFinish_nonneg (D : List TaskDependency) (ef : Nat → Option Int) (tid : Nat) :
    0 ≤ maxPredFinish D ef tid :=
  maxPredFinish_acc_le D ef tid 0

theorem maxPredFinish_ge (D : List TaskDependency) (ef : Nat → Option Int) (tid : Nat)
    (d : TaskDependency) (hd : d ∈ D) (ht : d.task_id = tid) :
    (ef d.predecessor_task_id).getD 0 + d.lag_days ≤ maxPredFinish D ef tid := by
  have go : ∀ (E : List TaskDependency) (acc : Int), d ∈ E →
      (ef d.predecessor_task_id).getD 0 + d.lag_days ≤
        E.foldl (fun acc d =>
          if d.task_id == tid then max acc ((ef d.predecessor_task_id).getD 0 + d.lag_days)
          else acc) acc := by
    intro E
    induction E with
    | nil => intro acc hmem; cases hmem
    | cons e E ih =>
      intro acc hmem
      simp only [List.foldl_cons]
      rcases List.mem_cons.mp hmem with he | he
      · subst he
        refine le_trans ?_ (maxPredFinish_acc_le E ef tid _)
        simp only [ht, beq_self_eq_true, if_true]
        exact le_max_right _ _
      · exact ih _ he
  exact go D 0 hd

theorem maxPredFinish_congr (D : List TaskDependency) (ef1 ef2 : Nat → Option Int)
    (tid : Nat)
    (h : ∀ d ∈ D, d.task_id = tid → ef1 d.predecessor_task_id = ef2 d.predecessor_task_id) :
    maxPredFinish D ef1 tid = maxPredFinish D ef2 tid := by
  unfold maxPredFinish
  have go : ∀ (E : List TaskDependency),
      (∀ d ∈ E, d.task_id = tid → ef1 d.predecessor_task_id = ef2 d.predecessor_task_id) →
      ∀ acc : Int,
        (E.foldl (fun acc d =>
          if d.task_id == tid then max acc ((ef1 d.predecessor_task_id).getD 0 + d.lag_days)
          else acc) acc) =
        (E.foldl (fun acc d =>
          if d.task_id == tid then max acc ((ef2 d.predecessor_task_id).getD 0 + d.lag_days)
          else acc) acc) := by
    intro E hE
    induction E with
    | nil => intro acc; rfl
    | cons e E ih =>
      intro acc
      simp only [List.foldl_cons]
      by_cases he : e.task_id == tid
      · simp only [he, if_true]
        rw [hE e (by simp) (by simpa using he)]
        exact ih (fun d hd htd => hE d (by simp [hd]) htd) _
      · simp only [he, if_false]
        exact ih (fun d hd htd => hE d (by simp [hd]) htd) _
  exact go D h 0

theorem omin_eq_some (a : Option Int) (v : Int) :
    omin a v = some (match a with
      | none => v
      | some x => min x v) := rfl

theorem minSuccStart_isSome (D : List TaskDependency) (ls : Nat → Option Int) (pd : Int)
    (tid : Nat) (h : hasSuccDep D tid = true) :
    ∃ m, minSuccStart D ls pd tid = some m := by
  have gsome : ∀ (E : List TaskDependency) (acc : Option Int) (a : Int), acc = some a →
      ∃ m, E.foldl (fun acc d =>
        if d.predecessor_task_id == tid then omin acc ((ls d.task_id).getD pd - d.lag_days)
        else acc) acc = some m := by
    intro E
    induction E with
    | nil => intro acc a ha; exact ⟨a, ha⟩
    | cons e E ih =>
      intro acc a ha
      simp only [List.foldl_cons]
      by_cases he : e.predecessor_task_id == tid
      · simp only [he, if_true]
        exact ih _ _ (omin_eq_some _ _)
      · simp only [he, if_false]
        exact ih _ _ ha
  have go : ∀ (E : List TaskDependency) (acc : Option Int),
      (∃ d ∈ E, d.predecessor_task_id = tid) →
      ∃ m, E.foldl (fun acc d =>
        if d.predecessor_task_id == tid then omin acc ((ls d.task_id).getD pd - d.lag_days)
        else acc) acc = some m := by
    intro E
    induction E with
    | nil => rintro acc ⟨d, hd, -⟩; cases hd
    | cons e E ih =>
      rintro acc ⟨d, hd, hp⟩
      simp only [List.foldl_cons]
      by_cases he : e.predecessor_task_id == tid
      · simp only [he, if_true]
        exact gsome E _ _ (omin_eq_some _ _)
      · simp only [he, if_false]
        rcases List.mem_cons.mp hd with rfl | hd'
        · exact absurd (by simp [hp]) he
        · exact ih _ ⟨d, hd', hp⟩
  obtain ⟨d, hd, hp⟩ := List.any_eq_true.mp h
  exact go D none ⟨d, hd, by simpa using hp⟩

theorem minSuccStart_ge (D : List TaskDependency) (ls : Nat → Option Int) (pd : Int)
    (tid : Nat) (v : Int)
    (h : ∀ d ∈ D, d.predecessor_task_id = tid → v ≤ (ls d.task_id).getD pd - d.lag_days) :
    ∀ m, minSuccStart D ls pd tid = some m → v ≤ m := by
  have go : ∀ (E : List TaskDependency) (acc : Option Int),
      (∀ d ∈ E, d.predecessor_task_id = tid → v ≤ (ls d.task_id).getD pd - d.lag_days) →
      (acc = none ∨ ∃ a, acc = some a ∧ v ≤ a) →
      ∀ m, E.foldl (fun acc d =>
        if d.predecessor_task_id == tid then omin acc ((ls d.task_id).getD pd - d.lag_days)
        else acc) acc = some m → v ≤ m := by
    intro E
    induction E with
    | nil =>
      intro acc hE hacc m hm
      rcases hacc with h0 | ⟨a, ha, hva⟩
      · rw [h0] at hm; cases hm
      · rw [ha] at hm; cases hm; exact hva
    | cons e E ih =>
      intro acc hE hacc m hm
      simp only [List.foldl_cons] at hm
      by_cases he : e.predecessor_task_id == tid
      · rw [if_pos he] at hm
        refine ih _ (fun d hd hp => hE d (by simp [hd]) hp) ?_ m hm
        right
        have hterm := hE e (by simp) (by simpa using he)
        rcases hacc with h0 | ⟨a, ha, hva⟩
        · exact ⟨(ls e.task_id).getD pd - e.lag_days, by rw [h0]; rfl, hterm⟩
        · exact ⟨min a ((ls e.task_id).getD pd - e.lag_days), by rw [ha]; rfl,
            le_min hva hterm⟩
      · rw [if_neg he] at hm
        exact ih _ (fun d hd hp => hE d (by simp [hd]) hp) hacc m hm
  exact go D none h (Or.inl rfl)

theorem minSuccStart_le_term (D : List TaskDependency) (ls : Nat → Option Int) (pd : Int)
    (tid : Nat) (d : TaskDependency) (hd : d ∈ D) (hp : d.predecessor_task_id = tid) :
    ∀ m, minSuccStart D ls pd tid = some m → m ≤ (ls d.task_id).getD pd - d.lag_days := by
  have gdec : ∀ (E : List TaskDependency) (a : Int),
      ∀ m, E.foldl (fun acc d =>
        if d.predecessor_task_id == tid then omin acc ((ls d.task_id).getD pd - d.lag_days)
        else acc) (some a) = some m → m ≤ a := by
    intro E
    induction E with
    | nil => intro a m hm; cases hm; exact le_refl _
    | cons e E ih =>
      intro a m hm
      simp only [List.foldl_cons] at hm
      by_cases he : e.predecessor_task_id == tid
      · rw [if_pos he] at hm
        simp only [omin] at hm
        exact le_trans (ih _ m hm) (min_le_left _ _)
      · rw [if_neg he] at hm
        exact ih _ m hm
  have go : ∀ (E : List TaskDependency) (acc : Option Int), d ∈ E →
      ∀ m, E.foldl (fun acc d =>
        if d.predecessor_task_id == tid then omin acc ((ls d.task_id).getD pd - d.lag_days)
        else acc) acc = some m → m ≤ (ls d.task_id).getD pd - d.lag_days := by
    intro E
    induction E with
    | nil => intro acc h0; cases h0
    | cons e E ih =>
      intro acc hmem m hm
      simp only [List.foldl_cons] at hm
      rcases List.mem_cons.mp hmem with rfl | hmem'
      · rw [if_pos (by simp [hp])] at hm
        rcases acc with _ | a
        · simp only [omin] at hm
          exact gdec E _ m hm
        · simp only [omin] at hm
          exact le_trans (gdec E _ m hm) (min_le_right _ _)
      · by_cases he : e.predecessor_task_id == tid
        · rw [if_pos he] at hm
          exact ih _ hmem' m hm
        · rw [if_neg he] at hm
          exact ih _ hmem' m hm
  exact go D none hd

theorem minSuccStart_congr (D : List TaskDependency) (ls1 ls2 : Nat → Option Int)
    (pd : Int) (tid : Nat)
    (h : ∀ d ∈ D, d.predecessor_task_id = tid → ls1 d.task_id = ls2 d.task_id) :
    minSuccStart D ls1 pd tid = minSuccStart D ls2 pd tid := by
  unfold minSuccStart
  have go : ∀ (E : List TaskDependency),
      (∀ d ∈ E, d.predecessor_task_id = tid → ls1 d.task_id = ls2 d.task_id) →
      ∀ acc : Option Int,
        (E.foldl (fun acc d =>
          if d.predecessor_task_id == tid then omin acc ((ls1 d.task_id).getD pd - d.lag_days)
          else acc) acc) =
        (E.foldl (fun acc d =>
          if d.predecessor_task_id == tid then omin acc ((ls2 d.task_id).getD pd - d.lag_days)
          else acc) acc) := by
    intro E hE
    induction E with
    | nil => intro acc; rfl
    | cons e E ih =>
      intro acc
      simp only [List.foldl_cons]
      by_cases he : e.predecessor_task_id == tid
      · simp only [he, if_true]
        rw [hE e (by simp) (by simpa using he)]
        exact ih (fun d hd htd => hE d (by simp [hd]) htd) _
      · simp only [he, if_false]
        exact ih (fun d hd htd => hE d (by simp [hd]) htd) _
  exact go D h none

theorem maxList_acc_le (xs : List Int) : ∀ acc : Int, acc ≤ xs.foldl max acc := by
  induction xs with
  | nil => intro acc; exact le_refl acc
  | cons x xs ih =>
    intro acc
    simp only [List.foldl_cons]
    exact le_trans (le_max_left _ _) (ih _)

theorem maxList_ge (l : List Int) (x : Int) (h : x ∈ l) : x ≤ maxList l := by
  have go : ∀ (xs : List Int) (acc : Int), x ∈ xs → x ≤ xs.foldl max acc := by
    intro xs
    induction xs with
    | nil => intro acc h0; cases h0
    | cons y ys ih =>
      intro acc hmem
      simp only [List.foldl_cons]
      rcases List.mem_cons.mp hmem with rfl | hmem'
      · exact le_trans (le_max_right _ _) (maxList_acc_le ys _)
      · exact ih _ hmem'
  cases l with
  | nil => cases h
  | cons y ys =>
    unfold maxList
    rcases List.mem_cons.mp h with rfl | hmem'
    · exact maxList_acc_le ys x
    · exact go ys y hmem'

theorem maxList_le (l : List Int) (v : Int) (hne : l ≠ []) (h : ∀ x ∈ l, x ≤ v) :
    maxList l ≤ v := by
  have go : ∀ (xs : List Int) (acc : Int), acc ≤ v → (∀ x ∈ xs, x ≤ v) →
      xs.foldl max acc ≤ v := by
    intro xs
    induction xs with
    | nil => intro acc hacc _; exact hacc
    | cons y ys ih =>
      intro acc hacc hxs
      simp only [List.foldl_cons]
      exact ih _ (max_le hacc (hxs y (by simp))) (fun x hx => hxs x (by simp [hx]))
  cases l with
  | nil => cases hne rfl
  | cons y ys =>
    unfold maxList
    exact go ys y (h y (by simp)) (fun x hx => h x (by simp [hx]))



theorem topoOK_spec (D : List TaskDependency) (T : List STask) (h : topoOK D T = true) :
    ∀ pre t post, T = pre ++ t :: post → ∀ d ∈ D, d.task_id = t.id →
      ∀ u ∈ t :: post, u.id ≠ d.predecessor_task_id := by
  intro pre
  induction pre generalizing T h with
  | nil =>
    intro t post hT d hd htd u hu
    subst hT
    unfold topoOK at h
    obtain ⟨h1, -⟩ := Bool.and_eq_true_iff.mp h
    have := List.all_eq_true.mp h1 d hd
    rcases Bool.or_eq_true_iff.mp this with hc | hc
    · have hne : d.task_id ≠ t.id := by simpa using hc
      exact absurd htd hne
    · have := List.all_eq_true.mp hc u hu
      simpa using this
  | cons a pre ih =>
    intro t post hT d hd htd u hu
    subst hT
    unfold topoOK at h
    obtain ⟨-, h2⟩ := Bool.and_eq_true_iff.mp h
    exact ih _ h2 t post rfl d hd htd u hu

theorem topoOK_mono (D D' : List TaskDependency) (T : List STask)
    (hsub : ∀ d ∈ D', d ∈ D) (h : topoOK D T = true) : topoOK D' T = true := by
  induction T with
  | nil => rfl
  | cons t rest ih =>
    unfold topoOK at h ⊢
    obtain ⟨h1, h2⟩ := Bool.and_eq_true_iff.mp h
    refine Bool.and_eq_true_iff.mpr ⟨?_, ih h2⟩
    refine List.all_eq_true.mpr ?_
    intro d hd
    exact List.all_eq_true.mp h1 d (hsub d hd)

/-! ## The forward pass under topological order -/

theorem fwd_go (T : List STask) (D : List TaskDependency)
    (hnd : (T.map STask.id).Nodup) (htopo : topoOK D T = true) :
    ∀ (rest done : List STask) (es ef : Nat → Option Int),
      T = done ++ rest →
      (∀ x, (∀ t' ∈ done, t'.id ≠ x) → es x = none ∧ ef x = none) →
      (∀ t' ∈ done, ∃ e, es t'.id = some e ∧ ef t'.id = some (e + t'.duration)) →
      (∀ t' ∈ done, hasPredDep D t'.id = false → es t'.id = some 0) →
      (∀ t' ∈ done, hasPredDep D t'.id = true →
        es t'.id = some (maxPredFinish D ef t'.id)) →
      (∀ x, (∀ t' ∈ T, t'.id ≠ x) →
        (fwd D rest es ef).1 x = none ∧ (fwd D rest es ef).2 x = none) ∧
      (∀ t' ∈ T, ∃ e, (fwd D rest es ef).1 t'.id = some e ∧
        (fwd D rest es ef).2 t'.id = some (e + t'.duration)) ∧
      (∀ t' ∈ T, hasPredDep D t'.id = false → (fwd D rest es ef).1 t'.id = some 0) ∧
      (∀ t' ∈ T, hasPredDep D t'.id = true →
        (fwd D rest es ef).1 t'.id =
          some (maxPredFinish D (fwd D rest es ef).2 t'.id)) := by
  intro rest
  induction rest with
  | nil =>
    intro done es ef hT h1 h2 h3 h4
    rw [List.append_nil] at hT
    subst hT
    exact ⟨h1, h2, h3, h4⟩
  | cons t rest ih =>
    intro done es ef hT h1 h2 h3 h4
    -- id disjointness facts from Nodup
    have hnd' := hnd
    rw [hT, List.map_append, List.nodup_append] at hnd'
    obtain ⟨-, hnd2, hdisj⟩ := hnd'
    have hid_done : ∀ t' ∈ done, t'.id ≠ t.id := by
      intro t' ht' heq
      exact hdisj (List.mem_map_of_mem STask.id ht') (by simp [heq])
    -- topological facts
    have hts : ∀ d ∈ D, d.task_id = t.id → t.id ≠ d.predecessor_task_id := by
      intro d hd htd
      exact topoOK_spec D T htopo done t rest hT d hd htd t (by simp)
    have hts' : ∀ t' ∈ done, ∀ d ∈ D, d.task_id = t'.id →
        t.id ≠ d.predecessor_task_id := by
      intro t' ht' d hd htd
      obtain ⟨l1, l2, hdone⟩ := List.append_of_mem ht'
      have hT' : T = l1 ++ t' :: (l2 ++ t :: rest) := by rw [hT, hdone]; simp
      exact topoOK_spec D T htopo l1 t' (l2 ++ t :: rest) hT' d hd htd t (by simp)
    have hT2 : T = (done ++ [t]) ++ rest := by rw [hT]; simp
    -- the two branches of the loop body
    by_cases hp : hasPredDep D t.id = true
    · rw [show fwd D (t :: rest) es ef =
          fwd D rest (upd es t.id (maxPredFinish D ef t.id))
            (upd ef t.id (maxPredFinish D ef t.id + t.duration)) by
        simp [fwd, hp]]
      refine ih (done ++ [t]) _ _ hT2 ?_ ?_ ?_ ?_
      · intro x hx
        have hxt : x ≠ t.id := fun h => (hx t (by simp)) h.symm
        rw [upd_other _ _ _ _ hxt, upd_other _ _ _ _ hxt]
        exact h1 x (fun t' ht' => hx t' (by simp [ht']))
      · intro t' ht'
        rcases List.mem_append.mp ht' with ht' | ht'
        · have hne : t'.id ≠ t.id := hid_done t' ht'
          rw [upd_other _ _ _ _ hne, upd_other _ _ _ _ hne]
          exact h2 t' ht'
        · have : t' = t := by simpa using ht'
          subst this
          exact ⟨maxPredFinish D ef t'.id, upd_self _ _ _, upd_self _ _ _⟩
      · intro t' ht' hnp
        rcases List.mem_append.mp ht' with ht' | ht'
        · have hne : t'.id ≠ t.id := hid_done t' ht'
          rw [upd_other _ _ _ _ hne]
          exact h3 t' ht' hnp
        · have : t' = t := by simpa using ht'
          subst this
          rw [hp] at hnp
          cases hnp
      · intro t' ht' hhp
        rcases List.mem_append.mp ht' with ht' | ht'
        · have hne : t'.id ≠ t.id := hid_done t' ht'
          rw [upd_other _ _ _ _ hne, h4 t' ht' hhp]
          congr 1
          apply maxPredFinish_congr
          intro d hd htd
          rw [upd_other _ _ _ _ (fun h => hts' t' ht' d hd htd h.symm)]
        · have : t' = t := by simpa using ht'
          subst this
          rw [upd_self]
          congr 1
          apply maxPredFinish_congr
          intro d hd htd
          rw [upd_other _ _ _ _ (fun h => hts d hd htd h.symm)]
    · have hp' : hasPredDep D t.id = false := by simpa using hp
      rw [show fwd D (t :: rest) es ef =
          fwd D rest (upd es t.id 0) (upd ef t.id t.duration) by
        simp [fwd, hp']]
      refine ih (done ++ [t]) _ _ hT2 ?_ ?_ ?_ ?_
      · intro x hx
        have hxt : x ≠ t.id := fun h => (hx t (by simp)) h.symm
        rw [upd_other _ _ _ _ hxt, upd_other _ _ _ _ hxt]
        exact h1 x (fun t' ht' => hx t' (by simp [ht']))
      · intro t' ht'
        rcases List.mem_append.mp ht' with ht' | ht'
        · have hne : t'.id ≠ t.id := hid_done t' ht'
          rw [upd_other _ _ _ _ hne, upd_other _ _ _ _ hne]
          exact h2 t' ht'
        · have : t' = t := by simpa using ht'
          subst this
          exact ⟨0, upd_self _ _ _, by rw [upd_self, zero_add]⟩
      · intro t' ht' hnp
        rcases List.mem_append.mp ht' with ht' | ht'
        · have hne : t'.id ≠ t.id := hid_done t' ht'
          rw [upd_other _ _ _ _ hne]
          exact h3 t' ht' hnp
        · have : t' = t := by simpa using ht'
          subst this
          exact upd_self _ _ _
      · intro t' ht' hhp
        rcases List.mem_append.mp ht' with ht' | ht'
        · have hne : t'.id ≠ t.id := hid_done t' ht'
          rw [upd_other _ _ _ _ hne, h4 t' ht' hhp]
          congr 1
          apply maxPredFinish_congr
          intro d hd htd
          rw [upd_other _ _ _ _ (fun h => hts' t' ht' d hd htd h.symm)]
        · have : t' = t := by simpa using ht'
          subst this
          rw [hhp] at hp'
          cases hp'

/-! ## The backward pass under topological order -/

/-- Successors always lie strictly after a task in a topologically ordered
list: if a dependency has its predecessor at the split position, any task
carrying the dependency's successor id lies in the suffix. -/
theorem succ_after (T : List STask) (D : List TaskDependency) (htopo : topoOK D T = true) :
    ∀ pre t post, T = pre ++ t :: post → ∀ d ∈ D, d.predecessor_task_id = t.id →
      ∀ s ∈ T, s.id = d.task_id → s ∈ post := by
  intro pre t post hT d hd hp s hsT hsid
  have hsT' := hsT
  rw [hT] at hsT'
  rcases List.mem_append.mp hsT' with hs1 | hs2
  · exfalso
    obtain ⟨l1, l2, hpre⟩ := List.append_of_mem hs1
    have hT2 : T = l1 ++ s :: (l2 ++ t :: post) := by rw [hT, hpre]; simp
    exact topoOK_spec D T htopo l1 s (l2 ++ t :: post) hT2 d hd hsid.symm t
      (by simp) (hp ▸ rfl)
  · rcases List.mem_cons.mp hs2 with rfl | hs3
    · exfalso
      exact topoOK_spec D T htopo pre s post hT d hd hsid.symm s (by simp) (hp ▸ rfl)
    · exact hs3

theorem bwd_go (T : List STask) (D : List TaskDependency) (pd : Int)
    (esf eff : Nat → Option Int)
    (hnd : (T.map STask.id).Nodup) (htopo : topoOK D T = true)
    (hdsub : ∀ d ∈ D, ∃ s ∈ T, s.id = d.task_id)
    (hF2 : ∀ t' ∈ T, ∃ e, esf t'.id = some e ∧ eff t'.id = some (e + t'.duration))
    (hFC : ∀ d ∈ D, ∀ u ∈ T, u.id = d.predecessor_task_id →
      ∃ e, esf d.task_id = some e ∧ ∃ f, eff u.id = some f ∧ f + d.lag_days ≤ e)
    (hFPD : ∀ t' ∈ T, (eff t'.id).getD 0 ≤ pd) :
    ∀ (rest done : List STask) (ls lf : Nat → Option Int),
      T.reverse = done ++ rest →
      (∀ x, (∀ t' ∈ done, t'.id ≠ x) → ls x = none ∧ lf x = none) →
      (∀ t' ∈ done, ∃ l, lf t'.id = some l ∧ ls t'.id = some (l - t'.duration)) →
      (∀ t' ∈ done, hasSuccDep D t'.id = false → lf t'.id = some pd) →
      (∀ t' ∈ done, hasSuccDep D t'.id = true →
        ∃ m, minSuccStart D ls pd t'.id = some m ∧ lf t'.id = some m) →
      (∀ t' ∈ done, ∃ e l', esf t'.id = some e ∧ ls t'.id = some l' ∧ e ≤ l') →
      (∀ t' ∈ T.reverse, ∃ l, (bwd D pd rest ls lf).2 t'.id = some l ∧
        (bwd D pd rest ls lf).1 t'.id = some (l - t'.duration)) ∧
      (∀ t' ∈ T.reverse, hasSuccDep D t'.id = false →
        (bwd D pd rest ls lf).2 t'.id = some pd) ∧
      (∀ t' ∈ T.reverse, hasSuccDep D t'.id = true →
        ∃ m, minSuccStart D (bwd D pd rest ls lf).1 pd t'.id = some m ∧
          (bwd D pd rest ls lf).2 t'.id = some m) ∧
      (∀ t' ∈ T.reverse, ∃ e l', esf t'.id = some e ∧
        (bwd D pd rest ls lf).1 t'.id = some l' ∧ e ≤ l') := by
  intro rest
  induction rest with
  | nil =>
    intro done ls lf hT h1 h2 h3 h4 h5
    rw [List.append_nil] at hT
    subst hT
    exact ⟨h2, h3, h4, h5⟩
  | cons t rest ih =>
    intro done ls lf hT h1 h2 h3 h4 h5
    -- reconstruct the forward orientation of the list
    have hTf : T = rest.reverse ++ t :: done.reverse := by
      have := congrArg List.reverse hT
      simpa using this
    have htT : t ∈ T := by rw [hTf]; simp
    -- id disjointness
    have hndr : (T.reverse.map STask.id).Nodup := by
      rw [List.map_reverse]
      exact List.nodup_reverse.mpr hnd
    have hndr' := hndr
    rw [hT, List.map_append, List.nodup_append] at hndr'
    obtain ⟨-, hnd2, hdisj⟩ := hndr'
    have hid_done : ∀ t' ∈ done, t'.id ≠ t.id := by
      intro t' ht' heq
      exact hdisj (List.mem_map_of_mem STask.id ht') (by simp [heq])
    -- successors of t are in done
    have hsucc_t : ∀ d ∈ D, d.predecessor_task_id = t.id →
        ∀ s ∈ T, s.id = d.task_id → s ∈ done := by
      intro d hd hp s hsT hsid
      have := succ_after T D htopo rest.reverse t done.reverse hTf d hd hp s hsT hsid
      simpa using this
    -- successors of any processed task are processed and distinct from t
    have hsucc_done : ∀ t' ∈ done, ∀ d ∈ D, d.predecessor_task_id = t'.id →
        ∀ s ∈ T, s.id = d.task_id → s ∈ done ∧ s.id ≠ t.id := by
      intro t' ht' d hd hp s hsT hsid
      have ht'r : t' ∈ done.reverse := List.mem_reverse.mpr ht'
      obtain ⟨l1, l2, hdr⟩ := List.append_of_mem ht'r
      have hT2 : T = (rest.reverse ++ t :: l1) ++ t' :: l2 := by
        rw [hTf, hdr]; simp
      have hs2 := succ_after T D htopo (rest.reverse ++ t :: l1) t' l2 hT2 d hd hp s hsT hsid
      have hsdone : s ∈ done := by
        have : s ∈ done.reverse := by rw [hdr]; simp [hs2]
        simpa using this
      exact ⟨hsdone, hid_done s hsdone⟩
    -- no self-dependency at t
    have hnself : ∀ d ∈ D, d.predecessor_task_id = t.id → d.task_id ≠ t.id := by
      intro d hd hp heq
      exact topoOK_spec D T htopo rest.reverse t done.reverse hTf d hd heq t
        (by simp) (hp ▸ rfl)
    have hT2 : T.reverse = (done ++ [t]) ++ rest := by rw [hT]; simp
    by_cases hs : hasSuccDep D t.id = true
    · -- successor branch
      obtain ⟨m, hm⟩ := minSuccStart_isSome D ls pd t.id hs
      have hg : (minSuccStart D ls pd t.id).getD 0 = m := by rw [hm]; rfl
      rw [show bwd D pd (t :: rest) ls lf =
          bwd D pd rest (upd ls t.id ((minSuccStart D ls pd t.id).getD 0 - t.duration))
            (upd lf t.id ((minSuccStart D ls pd t.id).getD 0)) by
        simp [bwd, hs]]
      rw [hg]
      -- the lower bound on m
      obtain ⟨et, hesf_t, heff_t⟩ := hF2 t htT
      have hmlb : et + t.duration ≤ m := by
        refine minSuccStart_ge D ls pd t.id (et + t.duration) ?_ m hm
        intro d hd hp
        obtain ⟨s, hsT, hsid⟩ := hdsub d hd
        have hsdone := hsucc_t d hd hp s hsT hsid
        obtain ⟨es', l', hesf_s, hls_s, hle_s⟩ := h5 s hsdone
        obtain ⟨e', hesf_d, f, heff_u, hfle⟩ := hFC d hd t htT hp.symm
        rw [← hsid] at hesf_d
        rw [hesf_s] at hesf_d
        cases hesf_d
        rw [heff_t] at heff_u
        cases heff_u
        have hld : (ls d.task_id).getD pd = l' := by rw [← hsid, hls_s]; rfl
        rw [hld]
        omega
      -- the congruence for minSuccStart after the update
      have hcongr_t : minSuccStart D
          (upd ls t.id (m - t.duration)) pd t.id = minSuccStart D ls pd t.id := by
        apply minSuccStart_congr
        intro d hd hp
        exact upd_other _ _ _ _ (hnself d hd hp)
      refine ih (done ++ [t]) _ _ hT2 ?_ ?_ ?_ ?_ ?_
      · intro x hx
        have hxt : x ≠ t.id := fun h => (hx t (by simp)) h.symm
        rw [upd_other _ _ _ _ hxt, upd_other _ _ _ _ hxt]
        exact h1 x (fun t' ht' => hx t' (by simp [ht']))
      · intro t' ht'
        rcases List.mem_append.mp ht' with ht' | ht'
        · have hne : t'.id ≠ t.id := hid_done t' ht'
          rw [upd_other _ _ _ _ hne, upd_other _ _ _ _ hne]
          exact h2 t' ht'
        · have : t' = t := by simpa using ht'
          subst this
          exact ⟨m, upd_self _ _ _, upd_self _ _ _⟩
      · intro t' ht' hns
        rcases List.mem_append.mp ht' with ht' | ht'
        · have hne : t'.id ≠ t.id := hid_done t' ht'
          rw [upd_other _ _ _ _ hne]
          exact h3 t' ht' hns
        · have : t' = t := by simpa using ht'
          subst this
          rw [hs] at hns
          cases hns
      · intro t' ht' hhs
        rcases List.mem_append.mp ht' with ht' | ht'
        · have hne : t'.id ≠ t.id := hid_done t' ht'
          obtain ⟨m', hm', hlf'⟩ := h4 t' ht' hhs
          refine ⟨m', ?_, by rw [upd_other _ _ _ _ hne]; exact hlf'⟩
          rw [← hm']
          apply minSuccStart_congr
          intro d hd hp
          obtain ⟨s, hsT, hsid⟩ := hdsub d hd
          obtain ⟨-, hsne⟩ := hsucc_done t' ht' d hd hp s hsT hsid
          rw [← hsid]
          exact upd_other _ _ _ _ hsne
        · have : t' = t := by simpa using ht'
          subst this
          exact ⟨m, by rw [hcongr_t]; exact hm, upd_self _ _ _⟩
      · intro t' ht'
        rcases List.mem_append.mp ht' with ht' | ht'
        · have hne : t'.id ≠ t.id := hid_done t' ht'
          obtain ⟨e, l', he, hl, hle⟩ := h5 t' ht'
          exact ⟨e, l', he, by rw [upd_other _ _ _ _ hne]; exact hl, hle⟩
        · have : t' = t := by simpa using ht'
          subst this
          exact ⟨et, m - t'.duration, hesf_t, upd_self _ _ _, by omega⟩
    · -- no-successor branch
      have hs' : hasSuccDep D t.id = false := by simpa using hs
      rw [show bwd D pd (t :: rest) ls lf =
          bwd D pd rest (upd ls t.id (pd - t.duration)) (upd lf t.id pd) by
        simp [bwd, hs']]
      obtain ⟨et, hesf_t, heff_t⟩ := hF2 t htT
      have hpd_t : et + t.duration ≤ pd := by
        have := hFPD t htT
        rw [heff_t] at this
        simpa using this
      refine ih (done ++ [t]) _ _ hT2 ?_ ?_ ?_ ?_ ?_
      · intro x hx
        have hxt : x ≠ t.id := fun h => (hx t (by simp)) h.symm
        rw [upd_other _ _ _ _ hxt, upd_other _ _ _ _ hxt]
        exact h1 x (fun t' ht' => hx t' (by simp [ht']))
      · intro t' ht'
        rcases List.mem_append.mp ht' with ht' | ht'
        · have hne : t'.id ≠ t.id := hid_done t' ht'
          rw [upd_other _ _ _ _ hne, upd_other _ _ _ _ hne]
          exact h2 t' ht'
        · have : t' = t := by simpa using ht'
          subst this
          exact ⟨pd, upd_self _ _ _, upd_self _ _ _⟩
      · intro t' ht' hns
        rcases List.mem_append.mp ht' with ht' | ht'
        · have hne : t'.id ≠ t.id := hid_done t' ht'
          rw [upd_other _ _ _ _ hne]
          exact h3 t' ht' hns
        · have : t' = t := by simpa using ht'
          subst this
          exact upd_self _ _ _
      · intro t' ht' hhs
        rcases List.mem_append.mp ht' with ht' | ht'
        · have hne : t'.id ≠ t.id := hid_done t' ht'
          obtain ⟨m', hm', hlf'⟩ := h4 t' ht' hhs
          refine ⟨m', ?_, by rw [upd_other _ _ _ _ hne]; exact hlf'⟩
          rw [← hm']
          apply minSuccStart_congr
          intro d hd hp
          obtain ⟨s, hsT, hsid⟩ := hdsub d hd
          obtain ⟨-, hsne⟩ := hsucc_done t' ht' d hd hp s hsT hsid
          rw [← hsid]
          exact upd_other _ _ _ _ hsne
        · have : t' = t := by simpa using ht'
          subst this
          rw [hhs] at hs'
          cases hs'
      · intro t' ht'
        rcases List.mem_append.mp ht' with ht' | ht'
        · have hne : t'.id ≠ t.id := hid_done t' ht'
          obtain ⟨e, l', he, hl, hle⟩ := h5 t' ht'
          exact ⟨e, l', he, by rw [upd_other _ _ _ _ hne]; exact hl, hle⟩
        · have : t' = t := by simpa using ht'
          subst this
          exact ⟨et, pd - t'.duration, hesf_t, upd_self _ _ _, by omega⟩

/-! ## The CPM state on a topologically ordered snapshot -/

theorem relevantDeps_sub (tasks : List STask) (deps : List TaskDependency) :
    ∀ d ∈ relevantDeps tasks deps, d ∈ deps :=
  fun _ hd => (List.mem_filter.mp hd).1

theorem relevantDeps_succ_mem (tasks : List STask) (deps : List TaskDependency) :
    ∀ d ∈ relevantDeps tasks deps, ∃ s ∈ tasks, s.id = d.task_id := by
  intro d hd
  have h := (List.mem_filter.mp hd).2
  obtain ⟨s, hs, hb⟩ := List.any_eq_true.mp h
  exact ⟨s, hs, by simpa using hb⟩

theorem cpm_invariants (tasks : List STask) (deps : List TaskDependency)
    (hnd : (tasks.map STask.id).Nodup) (htopo : topoOK deps tasks = true) :
    (∀ t ∈ tasks, ∃ e, (cpm tasks deps).es t.id = some e ∧
      (cpm tasks deps).ef t.id = some (e + t.duration)) ∧
    (∀ t ∈ tasks, hasPredDep (relevantDeps tasks deps) t.id = false →
      (cpm tasks deps).es t.id = some 0) ∧
    (∀ t ∈ tasks, hasPredDep (relevantDeps tasks deps) t.id = true →
      (cpm tasks deps).es t.id =
        some (maxPredFinish (relevantDeps tasks deps) (cpm tasks deps).ef t.id)) ∧
    (∀ t ∈ tasks, ∃ l, (cpm tasks deps).lf t.id = some l ∧
      (cpm tasks deps).ls t.id = some (l - t.duration)) ∧
    (∀ t ∈ tasks, hasSuccDep (relevantDeps tasks deps) t.id = false →
      (cpm tasks deps).lf t.id = some (cpm tasks deps).pd) ∧
    (∀ t ∈ tasks, hasSuccDep (relevantDeps tasks deps) t.id = true →
      ∃ m, minSuccStart (relevantDeps tasks deps) (cpm tasks deps).ls
        (cpm tasks deps).pd t.id = some m ∧ (cpm tasks deps).lf t.id = some m) ∧
    (∀ t ∈ tasks, ∃ e l, (cpm tasks deps).es t.id = some e ∧
      (cpm tasks deps).ls t.id = some l ∧ e ≤ l) := by
  have htopoD : topoOK (relevantDeps tasks deps) tasks = true :=
    topoOK_mono deps _ tasks (relevantDeps_sub tasks deps) htopo
  have hdsub := relevantDeps_succ_mem tasks deps
  have hvac : ∀ (P : STask → Prop), ∀ t' ∈ ([] : List STask), P t' := by
    intro P t' ht'
    cases ht'
  obtain ⟨F1, F2, F3, F4⟩ :=
    fwd_go tasks (relevantDeps tasks deps) hnd htopoD tasks [] (fun _ => none)
      (fun _ => none) rfl (fun x _ => ⟨rfl, rfl⟩) (hvac _) (hvac _) (hvac _)
  have hes : (cpm tasks deps).es =
      (fwd (relevantDeps tasks deps) tasks (fun _ => none) (fun _ => none)).1 := rfl
  have hef : (cpm tasks deps).ef =
      (fwd (relevantDeps tasks deps) tasks (fun _ => none) (fun _ => none)).2 := rfl
  have hpd : (cpm tasks deps).pd =
      maxList (tasks.map (fun t =>
        ((fwd (relevantDeps tasks deps) tasks (fun _ => none) (fun _ => none)).2 t.id).getD 0)) :=
    rfl
  have hFPD : ∀ t' ∈ tasks,
      (((fwd (relevantDeps tasks deps) tasks (fun _ => none) (fun _ => none)).2 t'.id).getD 0) ≤
        (cpm tasks deps).pd := by
    intro t' ht'
    rw [hpd]
    exact maxList_ge _ _ (List.mem_map_of_mem _ ht')
  have hFC : ∀ d ∈ relevantDeps tasks deps, ∀ u ∈ tasks, u.id = d.predecessor_task_id →
      ∃ e, (fwd (relevantDeps tasks deps) tasks (fun _ => none) (fun _ => none)).1 d.task_id
          = some e ∧
        ∃ f, (fwd (relevantDeps tasks deps) tasks (fun _ => none) (fun _ => none)).2 u.id
          = some f ∧ f + d.lag_days ≤ e := by
    intro d hd u hu huid
    obtain ⟨s, hsT, hsid⟩ := hdsub d hd
    have hhp : hasPredDep (relevantDeps tasks deps) s.id = true := by
      unfold hasPredDep
      exact List.any_eq_true.mpr ⟨d, hd, by simp [hsid]⟩
    have h3 := F4 s hsT hhp
    obtain ⟨eu, hesu, hefu⟩ := F2 u hu
    refine ⟨maxPredFinish (relevantDeps tasks deps)
      (fwd (relevantDeps tasks deps) tasks (fun _ => none) (fun _ => none)).2 s.id,
      by rw [← hsid]; exact h3, eu + u.duration, hefu, ?_⟩
    have := maxPredFinish_ge (relevantDeps tasks deps)
      (fwd (relevantDeps tasks deps) tasks (fun _ => none) (fun _ => none)).2 s.id d hd hsid.symm
    rw [← huid] at this
    rw [hefu] at this
    simpa using this
  obtain ⟨B1, B2, B3, B4⟩ :=
    bwd_go tasks (relevantDeps tasks deps) (cpm tasks deps).pd
      (fwd (relevantDeps tasks deps) tasks (fun _ => none) (fun _ => none)).1
      (fwd (relevantDeps tasks deps) tasks (fun _ => none) (fun _ => none)).2
      hnd htopoD hdsub F2 hFC hFPD tasks.reverse [] (fun _ => none) (fun _ => none)
      rfl (fun x _ => ⟨rfl, rfl⟩) (hvac _) (hvac _) (hvac _) (hvac _)
  have hls : (cpm tasks deps).ls =
      (bwd (relevantDeps tasks deps) (cpm tasks deps).pd tasks.reverse (fun _ => none)
        (fun _ => none)).1 := rfl
  have hlf : (cpm tasks deps).lf =
      (bwd (relevantDeps tasks deps) (cpm tasks deps).pd tasks.reverse (fun _ => none)
        (fun _ => none)).2 := rfl
  refine ⟨?_, ?_, ?_, ?_, ?_, ?_, ?_⟩
  · intro t ht; rw [hes, hef]; exact F2 t ht
  · intro t ht h; rw [hes]; exact F3 t ht h
  · intro t ht h; rw [hes, hef]; exact F4 t ht h
  · intro t ht; rw [hls, hlf]; exact B1 t (List.mem_reverse.mpr ht)
  · intro t ht h; rw [hlf]; exact B2 t (List.mem_reverse.mpr ht) h
  · intro t ht h; rw [hls, hlf]; exact B3 t (List.mem_reverse.mpr ht) h
  · intro t ht
    obtain ⟨e, l, he, hl, hle⟩ := B4 t (List.mem_reverse.mpr ht)
    exact ⟨e, l, by rw [hes]; exact he, by rw [hls]; exact hl, hle⟩

/-! ## C2 -/



/-- C2 counterexample: on this acyclic snapshot the computed float of task A
is -3 (negative), and A is nevertheless returned on the critical path (the
code keeps every task with float <= 0) — so for general acyclic snapshots
float is not always >= 0 and the critical list is not exactly the zero-float
tasks. -/
theorem c2_negative_float_counterexample :
    floatTime (cpm [c2tB, c2tA] c2Deps) c2tA = -3 ∧
    find_critical_path [c2tB, c2tA] c2Deps = [c2tA] ∧
    floatTime (cpm [c2tB, c2tA] c2Deps) c2tB = 6 := by
  refine ⟨by decide, by decide, by decide⟩

/-- C2 amended: when the snapshot's task list is topologically ordered with
respect to the dependencies (every dependency's predecessor occurs earlier
in the list than its successor) and task ids are distinct, every task's
float `latest_start - earliest_start` is >= 0, and the returned critical
path is exactly the tasks whose float is 0. -/
theorem c2_float_nonneg_critical_iff (tasks : List STask) (deps : List TaskDependency)
    (hnd : (tasks.map STask.id).Nodup) (htopo : topoOK deps tasks = true) :
    ∀ t ∈ tasks, ∃ e l, (cpm tasks deps).es t.id = some e ∧
      (cpm tasks deps).ls t.id = some l ∧
      floatTime (cpm tasks deps) t = l - e ∧ 0 ≤ l - e ∧
      (t ∈ find_critical_path tasks deps ↔ floatTime (cpm tasks deps) t = 0) := by
  intro t ht
  obtain ⟨-, -, -, -, -, -, I7⟩ := cpm_invariants tasks deps hnd htopo
  obtain ⟨e, l, he, hl, hle⟩ := I7 t ht
  have hfl : floatTime (cpm tasks deps) t = l - e := by
    unfold floatTime
    rw [he, hl]
    rfl
  refine ⟨e, l, he, hl, hfl, by omega, ?_, ?_⟩
  · intro hmem
    unfold find_critical_path at hmem
    have hle0 : floatTime (cpm tasks deps) t ≤ 0 := by
      simpa using (List.mem_filter.mp hmem).2
    omega
  · intro h0
    unfold find_critical_path
    refine List.mem_filter.mpr ⟨ht, ?_⟩
    simp only [decide_eq_true_eq]
    omega



theorem chain_deps_mem (T : List STask) (d : TaskDependency) (hd : d ∈ chain_deps T) :
    ∃ l1 u s l2, T = l1 ++ u :: s :: l2 ∧ d = ⟨s.id, u.id, "FS", 0⟩ := by
  induction T with
  | nil => cases hd
  | cons u T' ih =>
    cases T' with
    | nil => cases hd
    | cons s rest =>
      rw [show chain_deps (u :: s :: rest) = ⟨s.id, u.id, "FS", 0⟩ :: chain_deps (s :: rest)
        from rfl] at hd
      rcases List.mem_cons.mp hd with rfl | hd'
      · exact ⟨[], u, s, rest, rfl, rfl⟩
      · obtain ⟨l1, u', s', l2, hT, hdeq⟩ := ih hd'
        exact ⟨u :: l1, u', s', l2, by rw [hT]; rfl, hdeq⟩

theorem chain_deps_mem_of (l1 : List STask) (u s : STask) (l2 : List STask)
    (T : List STask) (hT : T = l1 ++ u :: s :: l2) :
    (⟨s.id, u.id, "FS", 0⟩ : TaskDependency) ∈ chain_deps T := by
  induction l1 generalizing T with
  | nil =>
    subst hT
    rw [List.nil_append,
      show chain_deps (u :: s :: l2) = ⟨s.id, u.id, "FS", 0⟩ :: chain_deps (s :: l2)
        from rfl]
    exact List.mem_cons_self _ _
  | cons a l1' ih =>
    subst hT
    have hrest : ∃ b rest', l1' ++ u :: s :: l2 = b :: rest' := by
      cases l1' with
      | nil => exact ⟨u, s :: l2, rfl⟩
      | cons b r => exact ⟨b, r ++ u :: s :: l2, rfl⟩
    obtain ⟨b, rest', hbr⟩ := hrest
    rw [List.cons_append, hbr,
      show chain_deps (a :: b :: rest') = ⟨b.id, a.id, "FS", 0⟩ :: chain_deps (b :: rest')
        from rfl]
    refine List.mem_cons_of_mem _ ?_
    rw [← hbr]
    exact ih _ rfl

/-- In a list with no duplicate ids, the decomposition around an element is
unique. -/
theorem nodup_split_eq (T : List STask) (hnd : (T.map STask.id).Nodup) :
    ∀ pre post pre' post' (t : STask), T = pre ++ t :: post → T = pre' ++ t :: post' →
      pre = pre' ∧ post = post' := by
  induction T with
  | nil =>
    intro pre post pre' post' t h1 _
    cases pre <;> cases h1
  | cons a T' ih =>
    intro pre post pre' post' t h1 h2
    have hndT' : (T'.map STask.id).Nodup := by
      rw [List.map_cons, List.nodup_cons] at hnd
      exact hnd.2
    have hna : a.id ∉ T'.map STask.id := by
      rw [List.map_cons, List.nodup_cons] at hnd
      exact hnd.1
    cases pre with
    | nil =>
      cases pre' with
      | nil =>
        cases h1
        cases h2
        exact ⟨rfl, rfl⟩
      | cons b pre2 =>
        exfalso
        injection h1 with ha hpost
        injection h2 with hb hT'
        subst ha
        subst hb
        apply hna
        rw [hT']
        refine List.mem_map_of_mem STask.id ?_
        exact List.mem_append.mpr (Or.inr (by simp))
    | cons b pre2 =>
      cases pre' with
      | nil =>
        exfalso
        injection h1 with hb hT'
        injection h2 with ha _
        subst hb
        subst ha
        apply hna
        rw [hT']
        refine List.mem_map_of_mem STask.id ?_
        exact List.mem_append.mpr (Or.inr (by simp))
      | cons c pre2' =>
        injection h1 with hb hT1
        injection h2 with hc hT2
        subst hb
        obtain ⟨hpp, hqq⟩ := ih hndT' pre2 post pre2' post' t hT1 hT2
        refine ⟨?_, hqq⟩
        rw [hpp, hc]

/-- Tasks with equal ids are equal in a list with no duplicate ids. -/
theorem id_inj_of_nodup (T : List STask) (hnd : (T.map STask.id).Nodup)
    (x y : STask) (hx : x ∈ T) (hy : y ∈ T) (h : x.id = y.id) : x = y :=
  List.inj_on_of_nodup_map hnd hx hy h

/-- All dependencies of a chain have their successor in the list. -/
theorem chain_deps_relevant (T : List STask) :
    relevantDeps T (chain_deps T) = chain_deps T := by
  unfold relevantDeps
  refine List.filter_eq_self.mpr ?_
  intro d hd
  obtain ⟨l1, u, s, l2, hT, hdeq⟩ := chain_deps_mem T d hd
  refine List.any_eq_true.mpr ⟨s, ?_, by simp [hdeq]⟩
  rw [hT]
  exact List.mem_append.mpr (Or.inr (by simp))

/-- A chain's task list is topologically ordered for its own dependencies. -/
theorem topoOK_chain (T : List STask) (hnd : (T.map STask.id).Nodup) :
    topoOK (chain_deps T) T = true := by
  have main : ∀ S pre, T = pre ++ S → topoOK (chain_deps T) S = true := by
    intro S
    induction S with
    | nil => intro pre _; rfl
    | cons t S' ih =>
      intro pre hpre
      rw [topoOK]
      refine Bool.and_eq_true_iff.mpr ⟨?_, ih (pre ++ [t]) (by rw [hpre]; simp)⟩
      refine List.all_eq_true.mpr ?_
      intro d hd
      refine Bool.or_eq_true_iff.mpr ?_
      by_cases htd : d.task_id = t.id
      · right
        refine List.all_eq_true.mpr ?_
        intro u hu
        obtain ⟨l1, u', s', l2, hT, hdeq⟩ := chain_deps_mem T d hd
        have hs't : s' = t := by
          refine id_inj_of_nodup T hnd s' t ?_ ?_ ?_
          · rw [hT]; exact List.mem_append.mpr (Or.inr (by simp))
          · rw [hpre]; exact List.mem_append.mpr (Or.inr (by simp))
          · rw [hdeq] at htd; exact htd
        subst hs't
        have hsplit := nodup_split_eq T hnd (l1 ++ [u']) l2 pre S' s'
          (by rw [hT]; simp) hpre
        obtain ⟨hpre_eq, hpost_eq⟩ := hsplit
        -- u'.id does not occur in s' :: S'
        have hnd2 := hnd
        rw [hT] at hnd2
        have : (l1 ++ u' :: s' :: l2).map STask.id =
            (l1.map STask.id ++ [u'.id]) ++ (s' :: l2).map STask.id := by simp
        rw [this, List.nodup_append] at hnd2
        obtain ⟨-, -, hdisj⟩ := hnd2
        have hu'no : u'.id ∉ (s' :: l2).map STask.id := by
          intro hmem
          exact hdisj (by simp) hmem
        simp only [Bool.not_eq_true']
        refine beq_eq_false_iff_ne.mpr ?_
        intro heq
        rw [hdeq] at heq
        apply hu'no
        rw [hpost_eq]
        exact List.mem_map.mpr ⟨u, hu, heq⟩
      · left
        simpa using htd
  exact main T [] rfl

theorem maxPredFinish_skip (ef : Nat → Option Int) (tid : Nat) :
    ∀ (E : List TaskDependency) (acc : Int), (∀ d ∈ E, d.task_id ≠ tid) →
      E.foldl (fun acc d =>
        if d.task_id == tid then max acc ((ef d.predecessor_task_id).getD 0 + d.lag_days)
        else acc) acc = acc := by
  intro E
  induction E with
  | nil => intro acc _; rfl
  | cons e E ih =>
    intro acc h
    simp only [List.foldl_cons]
    rw [if_neg (by simpa using h e (by simp))]
    exact ih acc (fun d hd => h d (by simp [hd]))

theorem maxPredFinish_unique (D : List TaskDependency) (ef : Nat → Option Int) (tid : Nat)
    (d0 : TaskDependency) (h0 : d0 ∈ D) (ht : d0.task_id = tid)
    (huniq : ∀ d ∈ D, d.task_id = tid → d = d0) :
    maxPredFinish D ef tid = max 0 ((ef d0.predecessor_task_id).getD 0 + d0.lag_days) := by
  unfold maxPredFinish
  have go : ∀ (E : List TaskDependency) (acc : Int), d0 ∈ E →
      (∀ d ∈ E, d.task_id = tid → d = d0) →
      E.foldl (fun acc d =>
        if d.task_id == tid then max acc ((ef d.predecessor_task_id).getD 0 + d.lag_days)
        else acc) acc = max acc ((ef d0.predecessor_task_id).getD 0 + d0.lag_days) := by
    intro E
    induction E with
    | nil => intro acc h0'; cases h0'
    | cons e E ih =>
      intro acc hmem hun
      simp only [List.foldl_cons]
      by_cases he : e.task_id = tid
      · have : e = d0 := hun e (by simp) he
        subst this
        rw [if_pos (by simpa using he)]
        by_cases hE : ∃ d ∈ E, d.task_id = tid
        · obtain ⟨d1, hd1, htd1⟩ := hE
          have : d1 = e := hun d1 (by simp [hd1]) htd1
          subst this
          rw [ih _ hd1 (fun d hd htd => hun d (by simp [hd]) htd)]
          rw [max_assoc, max_self]
        · push_neg at hE
          exact maxPredFinish_skip ef tid E _ hE
      · have hne : e ≠ d0 := fun h => he (h ▸ ht)
        rw [if_neg (by simpa using he)]
        rcases List.mem_cons.mp hmem with h' | h'
        · exact absurd h'.symm hne
        · exact ih _ h' (fun d hd htd => hun d (by simp [hd]) htd)
  exact go D 0 h0 huniq

theorem minSuccStart_skip (ls : Nat → Option Int) (pd : Int) (tid : Nat) :
    ∀ (E : List TaskDependency) (acc : Option Int), (∀ d ∈ E, d.predecessor_task_id ≠ tid) →
      E.foldl (fun acc d =>
        if d.predecessor_task_id == tid then omin acc ((ls d.task_id).getD pd - d.lag_days)
        else acc) acc = acc := by
  intro E
  induction E with
  | nil => intro acc _; rfl
  | cons e E ih =>
    intro acc h
    simp only [List.foldl_cons]
    rw [if_neg (by simpa using h e (by simp))]
    exact ih acc (fun d hd => h d (by simp [hd]))

theorem omin_idem (acc : Option Int) (v : Int) : omin (omin acc v) v = omin acc v := by
  cases acc with
  | none => simp [omin]
  | some x => simp [omin, min_assoc]

theorem minSuccStart_unique (D : List TaskDependency) (ls : Nat → Option Int) (pd : Int)
    (tid : Nat) (d0 : TaskDependency) (h0 : d0 ∈ D) (hp : d0.predecessor_task_id = tid)
    (huniq : ∀ d ∈ D, d.predecessor_task_id = tid → d = d0) :
    minSuccStart D ls pd tid = some ((ls d0.task_id).getD pd - d0.lag_days) := by
  unfold minSuccStart
  have go : ∀ (E : List TaskDependency) (acc : Option Int), d0 ∈ E →
      (∀ d ∈ E, d.predecessor_task_id = tid → d = d0) →
      E.foldl (fun acc d =>
        if d.predecessor_task_id == tid then omin acc ((ls d.task_id).getD pd - d.lag_days)
        else acc) acc = omin acc ((ls d0.task_id).getD pd - d0.lag_days) := by
    intro E
    induction E with
    | nil => intro acc h0'; cases h0'
    | cons e E ih =>
      intro acc hmem hun
      simp only [List.foldl_cons]
      by_cases he : e.predecessor_task_id = tid
      · have : e = d0 := hun e (by simp) he
        subst this
        rw [if_pos (by simpa using he)]
        by_cases hE : ∃ d ∈ E, d.predecessor_task_id = tid
        · obtain ⟨d1, hd1, htd1⟩ := hE
          have : d1 = e := hun d1 (by simp [hd1]) htd1
          subst this
          rw [ih _ hd1 (fun d hd htd => hun d (by simp [hd]) htd)]
          exact omin_idem _ _
        · push_neg at hE
          exact minSuccStart_skip ls pd tid E _ hE
      · have hne : e ≠ d0 := fun h => he (h ▸ hp)
        rw [if_neg (by simpa using he)]
        rcases List.mem_cons.mp hmem with h' | h'
        · exact absurd h'.symm hne
        · exact ih _ h' (fun d hd htd => hun d (by simp [hd]) htd)
  have := go D none h0 huniq
  rw [this]
  rfl

theorem append_singleton_inj (l1 l2 : List STask) (a b : STask)
    (h : l1 ++ [a] = l2 ++ [b]) : l1 = l2 ∧ a = b := by
  have := congrArg List.reverse h
  simp only [List.reverse_append, List.reverse_cons, List.reverse_nil,
    List.nil_append, List.singleton_append] at this
  injection this with h1 h2
  exact ⟨by simpa using congrArg List.reverse h2, h1⟩

theorem sumdur_append_singleton (xs : List STask) (u : STask) :
    sumdur (xs ++ [u]) = sumdur xs + u.duration := by
  simp [sumdur]

theorem sumdur_nonneg (xs : List STask) (h : ∀ t ∈ xs, 0 ≤ t.duration) : 0 ≤ sumdur xs := by
  refine List.sum_nonneg ?_
  intro x hx
  obtain ⟨t, ht, rfl⟩ := List.mem_map.mp hx
  exact h t ht

/-- In a chain, the only dependency targeting the task at a given split is
the one from its immediate predecessor. -/
theorem chain_pred_unique (T : List STask) (hnd : (T.map STask.id).Nodup)
    (l1 : List STask) (u t : STask) (l2 : List STask) (hT : T = l1 ++ u :: t :: l2) :
    ∀ d ∈ chain_deps T, d.task_id = t.id → d = ⟨t.id, u.id, "FS", 0⟩ := by
  intro d hd htd
  obtain ⟨m1, u'', s'', m2, hT2, hdeq⟩ := chain_deps_mem T d hd
  have hs'' : s'' = t := by
    refine id_inj_of_nodup T hnd s'' t ?_ ?_ ?_
    · rw [hT2]; exact List.mem_append.mpr (Or.inr (by simp))
    · rw [hT]; exact List.mem_append.mpr (Or.inr (by simp))
    · rw [hdeq] at htd; exact htd
  subst hs''
  obtain ⟨hpre, -⟩ := nodup_split_eq T hnd (m1 ++ [u'']) m2 (l1 ++ [u]) l2 s''
    (by rw [hT2]; simp) (by rw [hT]; simp)
  obtain ⟨-, hu⟩ := append_singleton_inj m1 l1 u'' u hpre
  rw [hdeq, hu]

/-- In a chain, the only dependency whose predecessor is the task at a given
split is the one to its immediate successor. -/
theorem chain_succ_unique (T : List STask) (hnd : (T.map STask.id).Nodup)
    (l1 : List STask) (t s : STask) (l2 : List STask) (hT : T = l1 ++ t :: s :: l2) :
    ∀ d ∈ chain_deps T, d.predecessor_task_id = t.id → d = ⟨s.id, t.id, "FS", 0⟩ := by
  intro d hd hpd
  obtain ⟨m1, u'', s'', m2, hT2, hdeq⟩ := chain_deps_mem T d hd
  have hu'' : u'' = t := by
    refine id_inj_of_nodup T hnd u'' t ?_ ?_ ?_
    · rw [hT2]; exact List.mem_append.mpr (Or.inr (by simp))
    · rw [hT]; exact List.mem_append.mpr (Or.inr (by simp))
    · rw [hdeq] at hpd; exact hpd
  subst hu''
  obtain ⟨-, hpost⟩ := nodup_split_eq T hnd m1 (s'' :: m2) l1 (s :: l2) u''
    (by rw [hT2]) (by rw [hT])
  injection hpost with hs _
  rw [hdeq, hs]

/-- The head of a chain has no predecessor dependency. -/
theorem chain_head_no_pred (T : List STask) (hnd : (T.map STask.id).Nodup)
    (t : STask) (l2 : List STask) (hT : T = t :: l2) :
    hasPredDep (chain_deps T) t.id = false := by
  refine Bool.eq_false_iff.mpr ?_
  intro htrue
  obtain ⟨d, hd, hbd⟩ := List.any_eq_true.mp htrue
  have htd : d.task_id = t.id := by simpa using hbd
  obtain ⟨m1, u', s', m2, hT2, hdeq⟩ := chain_deps_mem T d hd
  have hs' : s' = t := by
    refine id_inj_of_nodup T hnd s' t ?_ ?_ ?_
    · rw [hT2]; exact List.mem_append.mpr (Or.inr (by simp))
    · rw [hT]; simp
    · rw [hdeq] at htd; exact htd
  subst hs'
  obtain ⟨hpre, -⟩ := nodup_split_eq T hnd (m1 ++ [u']) m2 [] l2 s'
    (by rw [hT2]; simp) (by rw [hT]; rfl)
  simp at hpre

/-- The last task of a chain has no successor dependency. -/
theorem chain_last_no_succ (T : List STask) (hnd : (T.map STask.id).Nodup)
    (pre : List STask) (t : STask) (hT : T = pre ++ [t]) :
    hasSuccDep (chain_deps T) t.id = false := by
  refine Bool.eq_false_iff.mpr ?_
  intro htrue
  obtain ⟨d, hd, hbd⟩ := List.any_eq_true.mp htrue
  have hpd : d.predecessor_task_id = t.id := by simpa using hbd
  obtain ⟨m1, u', s', m2, hT2, hdeq⟩ := chain_deps_mem T d hd
  have hu' : u' = t := by
    refine id_inj_of_nodup T hnd u' t ?_ ?_ ?_
    · rw [hT2]; exact List.mem_append.mpr (Or.inr (by simp))
    · rw [hT]; exact List.mem_append.mpr (Or.inr (by simp))
    · rw [hdeq] at hpd; exact hpd
  subst hu'
  obtain ⟨-, hpost⟩ := nodup_split_eq T hnd m1 (s' :: m2) pre [] u'
    (by rw [hT2]) (by rw [hT])
  cases hpost

/-- Forward values on a chain: earliest start of the task at a split is the
sum of the durations before it. -/
theorem chain_es_ef (T : List STask) (hnd : (T.map STask.id).Nodup)
    (hdur : ∀ t ∈ T, 0 ≤ t.duration) :
    ∀ l1 t l2, T = l1 ++ t :: l2 →
      (cpm T (chain_deps T)).es t.id = some (sumdur l1) ∧
      (cpm T (chain_deps T)).ef t.id = some (sumdur l1 + t.duration) := by
  obtain ⟨I1, I2, I3, -, -, -, -⟩ :=
    cpm_invariants T (chain_deps T) hnd (topoOK_chain T hnd)
  rw [chain_deps_relevant] at I2 I3
  intro l1
  induction l1 using List.reverseRecOn with
  | nil =>
    intro t l2 hT
    have htm : t ∈ T := by rw [hT]; simp
    have hnp := chain_head_no_pred T hnd t l2 (by rw [hT]; rfl)
    have hes := I2 t htm hnp
    obtain ⟨e, he, hf⟩ := I1 t htm
    rw [hes] at he
    cases he
    exact ⟨by rw [hes]; rfl, by rw [hf]; rw [show sumdur [] = 0 from rfl, zero_add]⟩
  | append_singleton l1' u ih =>
    intro t l2 hT
    rw [List.append_assoc] at hT
    have hT' : T = l1' ++ u :: t :: l2 := hT
    have htm : t ∈ T := by rw [hT']; exact List.mem_append.mpr (Or.inr (by simp))
    obtain ⟨hesu, hefu⟩ := ih u (t :: l2) hT'
    have hd0 : (⟨t.id, u.id, "FS", 0⟩ : TaskDependency) ∈ chain_deps T :=
      chain_deps_mem_of l1' u t l2 T hT'
    have hhp : hasPredDep (chain_deps T) t.id = true := by
      unfold hasPredDep
      exact List.any_eq_true.mpr ⟨_, hd0, by simp⟩
    have hmax := maxPredFinish_unique (chain_deps T) (cpm T (chain_deps T)).ef t.id
      ⟨t.id, u.id, "FS", 0⟩ hd0 rfl (chain_pred_unique T hnd l1' u t l2 hT')
    have hes := I3 t htm hhp
    rw [hmax] at hes
    have hval : ((cpm T (chain_deps T)).ef u.id).getD 0 = sumdur l1' + u.duration := by
      rw [hefu]; rfl
    rw [show (⟨t.id, u.id, "FS", 0⟩ : TaskDependency).predecessor_task_id = u.id from rfl,
      show (⟨t.id, u.id, "FS", 0⟩ : TaskDependency).lag_days = 0 from rfl] at hes
    rw [hval, add_zero] at hes
    have hnn : 0 ≤ sumdur l1' + u.duration := by
      have h1 : 0 ≤ sumdur l1' := by
        refine sumdur_nonneg l1' ?_
        intro x hx
        exact hdur x (by rw [hT']; exact List.mem_append.mpr (Or.inl hx))
      have h2 : 0 ≤ u.duration := hdur u (by
        rw [hT']; exact List.mem_append.mpr (Or.inr (by simp)))
      omega
    rw [max_eq_right hnn] at hes
    have hsum : sumdur (l1' ++ [u]) = sumdur l1' + u.duration :=
      sumdur_append_singleton l1' u
    obtain ⟨e, he, hf⟩ := I1 t htm
    rw [hes] at he
    cases he
    refine ⟨by rw [hes, hsum], ?_⟩
    rw [hf, hsum]

/-- The computed project duration of a chain is the sum of all durations. -/
theorem chain_pd (T : List STask) (hnd : (T.map STask.id).Nodup)
    (hdur : ∀ t ∈ T, 0 ≤ t.duration) (hne : T ≠ []) :
    (cpm T (chain_deps T)).pd = sumdur T := by
  have hpd_def : (cpm T (chain_deps T)).pd =
      maxList (T.map fun t => ((cpm T (chain_deps T)).ef t.id).getD 0) := rfl
  have hub : ∀ v ∈ T.map (fun t => ((cpm T (chain_deps T)).ef t.id).getD 0),
      v ≤ sumdur T := by
    intro v hv
    obtain ⟨t, ht, rfl⟩ := List.mem_map.mp hv
    obtain ⟨l1, l2, hT⟩ := List.append_of_mem ht
    obtain ⟨-, hef⟩ := chain_es_ef T hnd hdur l1 t l2 hT
    rw [hef]
    show sumdur l1 + t.duration ≤ sumdur T
    have hsplit : sumdur T = sumdur l1 + t.duration + sumdur l2 := by
      rw [hT]
      simp [sumdur]
      ring
    have hl2 : 0 ≤ sumdur l2 := by
      refine sumdur_nonneg l2 ?_
      intro x hx
      exact hdur x (by
        rw [hT]; exact List.mem_append.mpr (Or.inr (List.mem_cons_of_mem _ hx)))
    omega
  obtain rfl | ⟨pre, tl, hTl⟩ := T.eq_nil_or_concat
  · cases hne rfl
  · rw [List.concat_eq_append] at hTl
    obtain ⟨-, heftl⟩ := chain_es_ef T hnd hdur pre tl [] (by rw [hTl])
    have hsum : sumdur T = sumdur pre + tl.duration := by
      rw [hTl]; exact sumdur_append_singleton pre tl
    have hmem : sumdur pre + tl.duration ∈
        T.map (fun t => ((cpm T (chain_deps T)).ef t.id).getD 0) := by
      refine List.mem_map.mpr ⟨tl, ?_, by rw [heftl]; rfl⟩
      rw [hTl]
      exact List.mem_append.mpr (Or.inr (by simp))
    refine le_antisymm ?_ ?_
    · rw [hpd_def]
      refine maxList_le _ _ ?_ hub
      intro hmap
      rw [List.map_eq_nil_iff] at hmap
      exact hne hmap
    · rw [hpd_def, hsum]
      exact maxList_ge _ _ hmem

/-- Backward values on a chain: latest start of the task at a split equals
its earliest start, the sum of the durations before it. -/
theorem chain_ls (T : List STask) (hnd : (T.map STask.id).Nodup)
    (hdur : ∀ t ∈ T, 0 ≤ t.duration) :
    ∀ l2 l1 t, T = l1 ++ t :: l2 →
      (cpm T (chain_deps T)).ls t.id = some (sumdur l1) := by
  obtain ⟨-, -, -, I4, I5, I6, -⟩ :=
    cpm_invariants T (chain_deps T) hnd (topoOK_chain T hnd)
  rw [chain_deps_relevant] at I5 I6
  intro l2
  induction l2 with
  | nil =>
    intro l1 t hT
    have htm : t ∈ T := by rw [hT]; exact List.mem_append.mpr (Or.inr (by simp))
    have hns := chain_last_no_succ T hnd l1 t (by rw [hT])
    have hlf := I5 t htm hns
    obtain ⟨l, hlf2, hls⟩ := I4 t htm
    rw [hlf] at hlf2
    cases hlf2
    have hpd := chain_pd T hnd hdur (by rw [hT]; simp)
    have hval : (cpm T (chain_deps T)).pd - t.duration = sumdur l1 := by
      rw [hpd, hT, show (t :: ([] : List STask)) = [t] from rfl,
        sumdur_append_singleton]
      omega
    rw [hls, hval]
  | cons s l2' ih =>
    intro l1 t hT
    have hT2 : T = (l1 ++ [t]) ++ s :: l2' := by rw [hT]; simp
    have hlss := ih (l1 ++ [t]) s hT2
    have htm : t ∈ T := by rw [hT]; exact List.mem_append.mpr (Or.inr (by simp))
    have hd0 : (⟨s.id, t.id, "FS", 0⟩ : TaskDependency) ∈ chain_deps T :=
      chain_deps_mem_of l1 t s l2' T hT
    have hhs : hasSuccDep (chain_deps T) t.id = true := by
      unfold hasSuccDep
      exact List.any_eq_true.mpr ⟨_, hd0, by simp⟩
    obtain ⟨m, hmin, hlf⟩ := I6 t htm hhs
    have hminu := minSuccStart_unique (chain_deps T) (cpm T (chain_deps T)).ls
      (cpm T (chain_deps T)).pd t.id ⟨s.id, t.id, "FS", 0⟩ hd0 rfl
      (chain_succ_unique T hnd l1 t s l2' hT)
    rw [hminu] at hmin
    have hm : m = ((cpm T (chain_deps T)).ls s.id).getD (cpm T (chain_deps T)).pd - 0 :=
      (Option.some.inj hmin).symm
    rw [hlss] at hm
    obtain ⟨l, hlf2, hls⟩ := I4 t htm
    rw [hlf] at hlf2
    cases hlf2
    have hval : m - t.duration = sumdur l1 := by
      rw [hm]
      show (sumdur (l1 ++ [t]) - 0) - t.duration = sumdur l1
      rw [sumdur_append_singleton]
      omega
    rw [hls, hval]

/-- C7 counterexample: the same two-task chain A(5d) -> B(3d) (B depends on
A, finish-to-start, zero lag — exactly `chain_deps [A, B]`) listed in the
snapshot as [B, A] is computed wrongly: the project duration is 5, not the
sum 8, and only A is reported critical — so the claim fails for chain
snapshots whose task list is not in dependency order. -/
theorem c7_unordered_chain_counterexample :
    chain_deps [c7tA, c7tB] = [⟨2, 1, "FS", 0⟩] ∧
    find_critical_path [c7tB, c7tA] [⟨2, 1, "FS", 0⟩] = [c7tA] ∧
    (cpm [c7tB, c7tA] [⟨2, 1, "FS", 0⟩]).pd = 5 ∧
    sumdur [c7tB, c7tA] = 8 := by
  refine ⟨by decide, by decide, by decide, by decide⟩

/-- C7 amended: on a snapshot that is a linear chain of finish-to-start
dependencies with zero lag *whose task list lists the chain in dependency
order* (each predecessor before its successor; distinct task ids,
non-negative durations), every task is reported critical and the computed
project duration is the sum of all task durations.  Listed out of order,
the same chain can lose both properties. -/
theorem c7_chain_all_critical (tasks : List STask)
    (hnd : (tasks.map STask.id).Nodup) (hdur : ∀ t ∈ tasks, 0 ≤ t.duration) :
    find_critical_path tasks (chain_deps tasks) = tasks ∧
    (cpm tasks (chain_deps tasks)).pd = sumdur tasks := by
  constructor
  · refine List.filter_eq_self.mpr ?_
    intro t ht
    obtain ⟨l1, l2, hT⟩ := List.append_of_mem ht
    obtain ⟨hes, -⟩ := chain_es_ef tasks hnd hdur l1 t l2 hT
    have hls := chain_ls tasks hnd hdur l2 l1 t hT
    have hfl : floatTime (cpm tasks (chain_deps tasks)) t = 0 := by
      unfold floatTime
      rw [hes, hls]
      simp
    simp [hfl]
  · by_cases hne : tasks = []
    · subst hne
      rfl
    · exact chain_pd tasks hnd hdur hne

/-- C7 witness: the spec's own example, A(5d) -> B(3d) -> C(2d): the critical
path is [A, B, C] and the project duration is 10. -/
theorem c7_chain_all_critical_witness :
    find_critical_path [tA, tB, tC] (chain_deps [tA, tB, tC]) = [tA, tB, tC] ∧
    (cpm [tA, tB, tC] (chain_deps [tA, tB, tC])).pd = sumdur [tA, tB, tC] :=
  c7_chain_all_critical [tA, tB, tC] (by decide) (by decide)

/-- C2 witness: the amended theorem applied to the topologically ordered
A -> B -> C chain and its first task. -/
theorem c2_float_nonneg_critical_iff_witness :
    ∃ e l, (cpm [tA, tB, tC] chainABC).es tA.id = some e ∧
      (cpm [tA, tB, tC] chainABC).ls tA.id = some l ∧
      floatTime (cpm [tA, tB, tC] chainABC) tA = l - e ∧ 0 ≤ l - e ∧
      (tA ∈ find_critical_path [tA, tB, tC] chainABC ↔
        floatTime (cpm [tA, tB, tC] chainABC) tA = 0) :=
  c2_float_nonneg_critical_iff [tA, tB, tC] chainABC (by decide) (by decide) tA (by decide)

/-! ## C3: the forward pass ignores the relation type -/

theorem relevantDeps_retype (tasks : List STask) (deps : List TaskDependency)
    (g : TaskDependency → TaskDependency) (hg1 : ∀ d, (g d).task_id = d.task_id) :
    relevantDeps tasks (deps.map g) = (relevantDeps tasks deps).map g := by
  unfold relevantDeps
  rw [List.filter_map]
  congr 1
  apply List.filter_congr
  intro d _
  simp [Function.comp, hg1]

theorem hasPredDep_retype (D : List TaskDependency) (tid : Nat)
    (g : TaskDependency → TaskDependency) (hg1 : ∀ d, (g d).task_id = d.task_id) :
    hasPredDep (D.map g) tid = hasPredDep D tid := by
  unfold hasPredDep
  rw [List.any_map]
  congr 1
  funext d
  simp [Function.comp, hg1]

theorem hasSuccDep_retype (D : List TaskDependency) (tid : Nat)
    (g : TaskDependency → TaskDependency)
    (hg2 : ∀ d, (g d).predecessor_task_id = d.predecessor_task_id) :
    hasSuccDep (D.map g) tid = hasSuccDep D tid := by
  unfold hasSuccDep
  rw [List.any_map]
  congr 1
  funext d
  simp [Function.comp, hg2]

theorem maxPredFinish_retype (D : List TaskDependency) (ef : Nat → Option Int) (tid : Nat)
    (g : TaskDependency → TaskDependency) (hg1 : ∀ d, (g d).task_id = d.task_id)
    (hg2 : ∀ d, (g d).predecessor_task_id = d.predecessor_task_id)
    (hg3 : ∀ d, (g d).lag_days = d.lag_days) :
    maxPredFinish (D.map g) ef tid = maxPredFinish D ef tid := by
  unfold maxPredFinish
  rw [List.foldl_map]
  congr 1
  funext acc d
  rw [hg1, hg2, hg3]

theorem minSuccStart_retype (D : List TaskDependency) (ls : Nat → Option Int) (pd : Int)
    (tid : Nat) (g : TaskDependency → TaskDependency)
    (hg1 : ∀ d, (g d).task_id = d.task_id)
    (hg2 : ∀ d, (g d).predecessor_task_id = d.predecessor_task_id)
    (hg3 : ∀ d, (g d).lag_days = d.lag_days) :
    minSuccStart (D.map g) ls pd tid = minSuccStart D ls pd tid := by
  unfold minSuccStart
  rw [List.foldl_map]
  congr 1
  funext acc d
  rw [hg1, hg2, hg3]

theorem fwd_retype (D : List TaskDependency) (g : TaskDependency → TaskDependency)
    (hg1 : ∀ d, (g d).task_id = d.task_id)
    (hg2 : ∀ d, (g d).predecessor_task_id = d.predecessor_task_id)
    (hg3 : ∀ d, (g d).lag_days = d.lag_days) :
    ∀ (rest : List STask) (es ef : Nat → Option Int),
      fwd (D.map g) rest es ef = fwd D rest es ef := by
  intro rest
  induction rest with
  | nil => intro es ef; rfl
  | cons t rest ih =>
    intro es ef
    rw [show fwd (D.map g) (t :: rest) es ef = if hasPredDep (D.map g) t.id then
        fwd (D.map g) rest (upd es t.id (maxPredFinish (D.map g) ef t.id))
          (upd ef t.id (maxPredFinish (D.map g) ef t.id + t.duration))
      else fwd (D.map g) rest (upd es t.id 0) (upd ef t.id t.duration) from rfl]
    rw [show fwd D (t :: rest) es ef = if hasPredDep D t.id then
        fwd D rest (upd es t.id (maxPredFinish D ef t.id))
          (upd ef t.id (maxPredFinish D ef t.id + t.duration))
      else fwd D rest (upd es t.id 0) (upd ef t.id t.duration) from rfl]
    rw [hasPredDep_retype D t.id g hg1, maxPredFinish_retype D ef t.id g hg1 hg2 hg3]
    by_cases hp : hasPredDep D t.id = true
    · rw [if_pos hp, if_pos hp, ih]
    · rw [if_neg hp, if_neg hp, ih]

theorem bwd_retype (D : List TaskDependency) (pd : Int)
    (g : TaskDependency → TaskDependency)
    (hg1 : ∀ d, (g d).task_id = d.task_id)
    (hg2 : ∀ d, (g d).predecessor_task_id = d.predecessor_task_id)
    (hg3 : ∀ d, (g d).lag_days = d.lag_days) :
    ∀ (rest : List STask) (ls lf : Nat → Option Int),
      bwd (D.map g) pd rest ls lf = bwd D pd rest ls lf := by
  intro rest
  induction rest with
  | nil => intro ls lf; rfl
  | cons t rest ih =>
    intro ls lf
    rw [show bwd (D.map g) pd (t :: rest) ls lf = if hasSuccDep (D.map g) t.id then
        bwd (D.map g) pd rest
          (upd ls t.id ((minSuccStart (D.map g) ls pd t.id).getD 0 - t.duration))
          (upd lf t.id ((minSuccStart (D.map g) ls pd t.id).getD 0))
      else bwd (D.map g) pd rest (upd ls t.id (pd - t.duration)) (upd lf t.id pd)
      from rfl]
    rw [show bwd D pd (t :: rest) ls lf = if hasSuccDep D t.id then
        bwd D pd rest (upd ls t.id ((minSuccStart D ls pd t.id).getD 0 - t.duration))
          (upd lf t.id ((minSuccStart D ls pd t.id).getD 0))
      else bwd D pd rest (upd ls t.id (pd - t.duration)) (upd lf t.id pd)
      from rfl]
    rw [hasSuccDep_retype D t.id g hg2, minSuccStart_retype D ls pd t.id g hg1 hg2 hg3]
    by_cases hs : hasSuccDep D t.id = true
    · rw [if_pos hs, if_pos hs, ih]
    · rw [if_neg hs, if_neg hs, ih]

theorem cpm_retype (tasks : List STask) (deps : List TaskDependency)
    (g : TaskDependency → TaskDependency)
    (hg1 : ∀ d, (g d).task_id = d.task_id)
    (hg2 : ∀ d, (g d).predecessor_task_id = d.predecessor_task_id)
    (hg3 : ∀ d, (g d).lag_days = d.lag_days) :
    cpm tasks (deps.map g) = cpm tasks deps := by
  simp only [cpm]
  rw [relevantDeps_retype tasks deps g hg1]
  rw [fwd_retype (relevantDeps tasks deps) g hg1 hg2 hg3]
  rw [bwd_retype (relevantDeps tasks deps) _ g hg1 hg2 hg3]

/-- C3 amended: the forward pass never reads `dependency_type` — retyping
every dependency (any function that preserves ids and lag but rewrites the
type string, e.g. FS to SS) leaves the whole CPM state and the critical path
unchanged; on a topologically ordered snapshot every dependency is treated
with the finish-to-start formula: the successor's earliest start is at least
the predecessor's earliest finish plus lag, and earliest_finish =
earliest_start + duration for every task. -/
theorem c3_forward_ignores_relation_type (tasks : List STask)
    (deps : List TaskDependency) (g : TaskDependency → TaskDependency)
    (hg1 : ∀ d, (g d).task_id = d.task_id)
    (hg2 : ∀ d, (g d).predecessor_task_id = d.predecessor_task_id)
    (hg3 : ∀ d, (g d).lag_days = d.lag_days)
    (hnd : (tasks.map STask.id).Nodup) (htopo : topoOK deps tasks = true) :
    cpm tasks (deps.map g) = cpm tasks deps ∧
    find_critical_path tasks (deps.map g) = find_critical_path tasks deps ∧
    (∀ t ∈ tasks, ∃ e, (cpm tasks deps).es t.id = some e ∧
      (cpm tasks deps).ef t.id = some (e + t.duration)) ∧
    (∀ d ∈ relevantDeps tasks deps, ∀ u ∈ tasks, u.id = d.predecessor_task_id →
      ∃ e f, (cpm tasks deps).es d.task_id = some e ∧
        (cpm tasks deps).ef u.id = some f ∧ f + d.lag_days ≤ e) := by
  obtain ⟨I1, -, I3, -, -, -, -⟩ := cpm_invariants tasks deps hnd htopo
  refine ⟨cpm_retype tasks deps g hg1 hg2 hg3, ?_, I1, ?_⟩
  · unfold find_critical_path
    rw [cpm_retype tasks deps g hg1 hg2 hg3]
  · intro d hd u hu huid
    obtain ⟨s, hsT, hsid⟩ := relevantDeps_succ_mem tasks deps d hd
    have hhp : hasPredDep (relevantDeps tasks deps) s.id = true := by
      unfold hasPredDep
      exact List.any_eq_true.mpr ⟨d, hd, by simp [hsid]⟩
    have hes := I3 s hsT hhp
    obtain ⟨eu, hesu, hefu⟩ := I1 u hu
    refine ⟨maxPredFinish (relevantDeps tasks deps) (cpm tasks deps).ef s.id,
      eu + u.duration, by rw [← hsid]; exact hes, hefu, ?_⟩
    have hge := maxPredFinish_ge (relevantDeps tasks deps) (cpm tasks deps).ef s.id
      d hd hsid.symm
    rw [← huid, hefu] at hge
    simpa using hge

/-- C3 witness: the amended theorem applied to the two-task snapshot,
retyping its single finish-to-start dependency to start-to-start. -/
theorem c3_forward_ignores_relation_type_witness :
    cpm ssTasks (([⟨2, 1, "FS", 0⟩] : List TaskDependency).map
        (fun d => (⟨d.task_id, d.predecessor_task_id, "SS", d.lag_days⟩ : TaskDependency))) =
      cpm ssTasks [⟨2, 1, "FS", 0⟩] ∧
    find_critical_path ssTasks (([⟨2, 1, "FS", 0⟩] : List TaskDependency).map
        (fun d => (⟨d.task_id, d.predecessor_task_id, "SS", d.lag_days⟩ : TaskDependency))) =
      find_critical_path ssTasks [⟨2, 1, "FS", 0⟩] ∧
    (∀ t ∈ ssTasks, ∃ e, (cpm ssTasks [⟨2, 1, "FS", 0⟩]).es t.id = some e ∧
      (cpm ssTasks [⟨2, 1, "FS", 0⟩]).ef t.id = some (e + t.duration)) ∧
    (∀ d ∈ relevantDeps ssTasks [⟨2, 1, "FS", 0⟩], ∀ u ∈ ssTasks,
      u.id = d.predecessor_task_id →
      ∃ e f, (cpm ssTasks [⟨2, 1, "FS", 0⟩]).es d.task_id = some e ∧
        (cpm ssTasks [⟨2, 1, "FS", 0⟩]).ef u.id = some f ∧ f + d.lag_days ≤ e) :=
  c3_forward_ignores_relation_type ssTasks [⟨2, 1, "FS", 0⟩]
    (fun d => (⟨d.task_id, d.predecessor_task_id, "SS", d.lag_days⟩ : TaskDependency))
    (fun _ => rfl) (fun _ => rfl) (fun _ => rfl) (by decide) (by decide)

/-- C9: the suggestion payload is a deterministic function of the snapshot —
two invocations of the facade on the same snapshot with the same requested
type produce identical `results` payloads regardless of the generation
timestamps (`generated_at` is the only invocation-dependent output). -/
theorem c9_results_deterministic (now1 now2 : String) (s : Snapshot) (ot : String) :
    resultsOf (optimize_project_schedule now1 s ot) =
      resultsOf (optimize_project_schedule now2 s ot) := by
  unfold optimize_project_schedule
  split
  · rfl
  · split <;> rfl

/-! ## C10 -/

/-- C10: the cost optimizer clamps the optimized estimated cost at zero:
it always equals `max 0 (current - savings)`, is never negative, and is
exactly `0` whenever the suggested savings (which may include the flat 5000
staggering figure) exceed the current estimated cost. -/
theorem c10_optimized_cost_clamped (tasks : List STask) (resources : List SResource)
    (assignments : List ResourceAssignment) :
    (optimize_for_cost tasks resources assignments).optimized_estimated_cost =
      max 0 ((optimize_for_cost tasks resources assignments).current_estimated_cost -
        (optimize_for_cost tasks resources assignments).potential_cost_savings) ∧
    0 ≤ (optimize_for_cost tasks resources assignments).optimized_estimated_cost ∧
    ((optimize_for_cost tasks resources assignments).current_estimated_cost <
        (optimize_for_cost tasks resources assignments).potential_cost_savings →
      (optimize_for_cost tasks resources assignments).optimized_estimated_cost = 0) := by
  refine ⟨rfl, le_max_left _ _, fun h => ?_⟩
  show max 0 _ = 0
  have : (optimize_for_cost tasks resources assignments).current_estimated_cost -
      (optimize_for_cost tasks resources assignments).potential_cost_savings ≤ 0 := by
    linarith
  exact max_eq_left this

/-- C10 witness: two tasks with three assignments each trigger the flat 5000
staggering suggestion while no resource contributes any cost, so the savings
exceed the current cost 0 and the optimized cost is clamped to 0. -/
theorem c10_optimized_cost_clamped_witness :
    (optimize_for_cost [⟨1, "A", 2, 0, 2⟩, ⟨2, "B", 2, 2, 4⟩] []
      [⟨1, 11, 1⟩, ⟨1, 12, 1⟩, ⟨1, 13, 1⟩, ⟨2, 11, 1⟩, ⟨2, 12, 1⟩, ⟨2, 13, 1⟩]).optimized_estimated_cost
      = 0 :=
  (c10_optimized_cost_clamped [⟨1, "A", 2, 0, 2⟩, ⟨2, "B", 2, 2, 4⟩] []
    [⟨1, 11, 1⟩, ⟨1, 12, 1⟩, ⟨1, 13, 1⟩, ⟨2, 11, 1⟩, ⟨2, 12, 1⟩, ⟨2, 13, 1⟩]).2.2 (by
      norm_num [optimize_for_cost, optimize_resource_utilization,
        optimize_task_scheduling_for_cost, find_resource_substitutions, costSavedGet])
